import Mathlib

/-!
# clienty: the request pipeline of `client.go`

A shallow embedding of `Client.Get`, `Client.Put`, `Client.Post`,
`Client.PostWithBody`, `Client.Delete` and `Client.do` (src/client.go) and of the
`Board` record (src/board.go).

Go strings are byte sequences and are modelled as `List UInt8`.  A Go function
that can panic is modelled by an explicit `Outcome.panic` result.  The parts of
the Go standard library the pipeline calls are modelled as follows:

* `url.Values` (`Set`, `Encode`), `url.QueryEscape`, `http.Header.Set`,
  `multipart.Writer.FormDataContentType` are concrete definitions, and a query
  string is read back the way `url.ParseQuery` reads it (`queryParams`);
* `url.Parse` (inside `http.NewRequest`) is modelled as far as the pipeline depends on
  it: the fragment is split off at the first `#`, a control byte is rejected, and the
  raw query is the text after the first `?`; how `url.Parse` reads scheme, authority,
  path and fragment (and whether it accepts them) is a field of `Lib`, as are the random
  boundary chosen by `multipart.NewWriter` and `json.Unmarshal` at the target's type, so
  every theorem quantified over `Lib` holds whatever these do;
* the concrete runs decode into a `Board` with `unmarshalBoard`, a model of
  `json.Unmarshal` at `*Board` for JSON texts whose strings are ASCII without
  `\u` escapes.

The client is taken to be non-nil with a non-nil `*http.Client`; a nil request, a nil
response and a nil context are modelled (`Option`), since the code can produce them.
-/

namespace Clienty

set_option linter.dupNamespace false

/-- A Go `string` (or `[]byte`): a sequence of bytes. -/
abbrev Bytes := List UInt8

/-- The bytes of a string literal (its UTF-8 encoding). -/
def str (s : String) : Bytes := s.data.flatMap String.utf8EncodeChar

/-- A Go `error` value; `Option GoError` is the interface, `none` being `nil`. -/
abbrev GoError := String

/-! ## net/url -/

/-- The type `url.Values`, `map[string][]string`, as an association list whose
keys are kept distinct by `Values.Set`. -/
abbrev Values := List (Bytes × List Bytes)

/-- The method `url.Values.Set`: `v[key] = []string{value}`. -/
def Values.Set (v : Values) (key value : Bytes) : Values :=
  (key, [value]) :: v.filter (fun p => p.1 ≠ key)

/-- The map index `v[key]`: the values under `key`, none when the key is absent. -/
def Values.lookup (v : Values) (key : Bytes) : List Bytes :=
  match v.find? (fun p => p.1 = key) with
  | some p => p.2
  | none => []

/-- Bytes that `url.QueryEscape` leaves alone: letters, digits, `-`, `_`, `.`, `~`
(`shouldEscape(c, encodeQueryComponent)` is false exactly on these). -/
def unreserved (b : UInt8) : Bool :=
  (97 ≤ b && b ≤ 122) || (65 ≤ b && b ≤ 90) || (48 ≤ b && b ≤ 57) ||
    b == 45 || b == 95 || b == 46 || b == 126

/-- The table `upperhex = "0123456789ABCDEF"` indexed by a nibble. -/
def upperhex (n : UInt8) : UInt8 := if n < 10 then 48 + n else 55 + n

/-- What `url.QueryEscape` writes for one byte: a space becomes `+`, an unreserved byte
is kept, any other byte `c` becomes `%`, `upperhex[c>>4]`, `upperhex[c&15]`. -/
def escapeByte (b : UInt8) : Bytes :=
  if b = 32 then [43]
  else if unreserved b then [b]
  else [37, upperhex (b >>> 4), upperhex (b &&& 15)]

/-- The function `url.QueryEscape`. -/
def QueryEscape (s : Bytes) : Bytes := s.flatMap escapeByte

/-- Byte-wise lexicographic order on Go strings (`a <= b`). -/
def bytesLE : Bytes → Bytes → Bool
  | [], _ => true
  | _ :: _, [] => false
  | a :: as, b :: bs => a < b || (a == b && bytesLE as bs)

/-- The `key=value` segments `url.Values.Encode` writes: keys in sorted order, for each key
its values in order, both query-escaped. -/
def Values.segments (v : Values) : List Bytes :=
  (v.insertionSort (fun p q => bytesLE p.1 q.1 = true)).flatMap
    (fun p => p.2.map (fun x => QueryEscape p.1 ++ 61 :: QueryEscape x))

/-- Segments joined by `&` (a `&` is written before every segment but the first). -/
def joinAmp : List Bytes → Bytes
  | [] => []
  | [s] => s
  | s :: t :: rest => s ++ 38 :: joinAmp (t :: rest)

/-- The method `url.Values.Encode`. -/
def Values.Encode (v : Values) : Bytes := joinAmp v.segments

/-- The function `unhex` of net/url on a hexadecimal digit; `none` when `ishex` is false. -/
def unhex (b : UInt8) : Option UInt8 :=
  if 48 ≤ b ∧ b ≤ 57 then some (b - 48)
  else if 97 ≤ b ∧ b ≤ 102 then some (b - 97 + 10)
  else if 65 ≤ b ∧ b ≤ 70 then some (b - 65 + 10)
  else none

/-- The function `url.QueryUnescape`: `%XX` is the byte `unhex(X)<<4 | unhex(X)`, `+` is a
space; `none` is the `EscapeError` for a `%` not followed by two hexadecimal digits. -/
def QueryUnescape : Bytes → Option Bytes
  | [] => some []
  | b :: rest =>
    if b = 37 then
      match rest with
      | h :: l :: rest1 =>
        match unhex h, unhex l, QueryUnescape rest1 with
        | some x, some y, some s => some ((x <<< 4 ||| y) :: s)
        | _, _, _ => none
      | _ => none
    else if b = 43 then (QueryUnescape rest).map (fun s => 32 :: s)
    else (QueryUnescape rest).map (fun s => b :: s)

/-- The function `strings.Cut(s, sep)` for a one-byte separator: the text before the
first `sep` and the text after it (all of `s` and nothing when there is no `sep`). -/
def cut (sep : UInt8) : Bytes → Bytes × Bytes
  | [] => ([], [])
  | b :: rest => if b = sep then ([], rest) else (b :: (cut sep rest).1, (cut sep rest).2)

/-- The pieces of `s` between occurrences of `sep`. -/
def splitOn (sep : UInt8) : Bytes → List Bytes
  | [] => [[]]
  | b :: rest =>
    if b = sep then [] :: splitOn sep rest
    else
      match splitOn sep rest with
      | seg :: segs => (b :: seg) :: segs
      | [] => [[b]]

/-- One `&`-separated piece of a query string read as `url.ParseQuery` reads it: an empty
piece, a piece with a semicolon and a piece that does not unescape give no parameter;
otherwise the name is the text before the first `=` and the value the text after it, both
unescaped. -/
def parseSegment (seg : Bytes) : Option (Bytes × Bytes) :=
  if seg = [] then none
  else if 59 ∈ seg then none
  else
    match QueryUnescape (cut 61 seg).1, QueryUnescape (cut 61 seg).2 with
    | some name, some value => some (name, value)
    | _, _ => none

/-- The parameters of a query string, in order, as `url.ParseQuery` reads them: one
`(name, value)` pair for every occurrence. -/
def queryParams (q : Bytes) : List (Bytes × Bytes) := (splitOn 38 q).filterMap parseSegment

/-- The occurrences of the parameter `name` in the query string `q`. -/
def occurrences (q : Bytes) (name : Bytes) : List (Bytes × Bytes) :=
  (queryParams q).filter (fun p => p.1 = name)

/-- The `(name, value)` pairs of a parameter set, entry by entry. -/
def Values.pairs (v : Values) : List (Bytes × Bytes) :=
  v.flatMap (fun p => p.2.map (fun x => (p.1, x)))

/-- The keys of a parameter set are distinct, as the keys of a Go map are. -/
def Values.WF (v : Values) : Prop := (v.map Prod.fst).Nodup

/-! ## Arguments -/

/-- Modelled from the spec: the `Arguments` type is not in src/; the spec calls it
"an ordered mapping from parameter name to string value, convertible to URL
query-encoding".  A list of bindings; a later binding of a name replaces an earlier one. -/
abbrev Arguments := List (Bytes × Bytes)

/-- Modelled from the spec: `Arguments.ToURLValues` is not in src/ ("Convert `arguments`
to URL-encoded query parameters"): every binding is `Set` into an empty `url.Values`. -/
def Arguments.ToURLValues (args : Arguments) : Values :=
  args.foldl (fun v p => Values.Set v p.1 p.2) []

/-- The value the mapping `args` gives to `name`, if any (the last binding wins). -/
def Arguments.value (args : Arguments) (name : Bytes) : Option Bytes :=
  (args.reverse.find? (fun p => p.1 = name)).map Prod.snd

/-! ## net/http, mime/multipart, context -/

/-- A `context.Context`: the background context or one derived by the caller. -/
inductive Context where
  | background : Context
  | derived (id : Nat) : Context
  deriving DecidableEq, Repr

/-- The body `PostWithBody` builds with `multipart.Writer`: one form file part. -/
structure Multipart where
  boundary : Bytes
  fieldname : Bytes
  filename : Bytes
  content : Bytes
  deriving DecidableEq, Repr

/-- Scheme, authority, path and fragment of a parsed URL as `url.Parse` stores them (the
path unescaped and re-encoded on output, the host checked, and so on).  The model does not
look inside: `text` is whatever rendering the library model chooses. -/
structure Location where
  text : Bytes
  deriving DecidableEq, Repr

/-- A `*url.URL` as `url.Parse` returns it: the location, the field `RawQuery` (the query
string, without the `?`) and the field `ForceQuery`. -/
structure URL where
  Loc : Location
  RawQuery : Bytes
  ForceQuery : Bool
  deriving DecidableEq, Repr

/-- An `*http.Request` as built by `http.NewRequest`; `URL` is the parsed URL and `ctx` the
context the request carries. -/
structure Request where
  Method : Bytes
  URL : URL
  Body : Option Multipart
  Header : Values
  ctx : Context
  deriving DecidableEq, Repr

/-- An `io.Reader` read to its end: the bytes it yields and the error (other than EOF)
that ends the read, if any.  `ioutil.ReadAll` returns exactly this pair. -/
structure Reader where
  data : Bytes
  err : Option GoError
  deriving DecidableEq, Repr

/-- An `*http.Response`. -/
structure Response where
  StatusCode : Int
  Body : Reader
  deriving DecidableEq, Repr

/-- The method `(*http.Client).Do`: a response pointer (`none` is `nil`) and an error. -/
abbrev HTTPClient := Request → Option Response × Option GoError

/-- Standard-library behaviour the model leaves open. -/
structure Lib (τ : Type) where
  /-- how `url.Parse` reads the text before the first `?` (scheme, authority, path) and the
  text after the first `#` (fragment); `none` when it rejects them -/
  parseLocation : Bytes → Bytes → Option Location
  /-- the random boundary of `multipart.NewWriter` -/
  boundary : Bytes
  /-- the function `json.Unmarshal(b, target)`: the target afterwards and the error -/
  unmarshal : Bytes → τ → τ × Option GoError

/-- The test `stringContainsCTLByte` of net/url on one byte: `b < ' ' || b == 0x7f`. -/
def isCTL (b : UInt8) : Bool := b < 32 || b == 127

/-- The function `url.Parse`: the fragment is cut off at the first `#`; a control byte before
it is an error; the query is cut off at the first `?` (`ForceQuery` when that `?` is the only
one and ends the text); the rest is read by the library. -/
def Parse {τ : Type} (L : Lib τ) (rawURL : Bytes) : Option URL :=
  let u := (cut 35 rawURL).1
  let frag := (cut 35 rawURL).2
  if u.any isCTL then none
  else
    match L.parseLocation (cut 63 u).1 frag with
    | none => none
    | some loc =>
      some { Loc := loc, RawQuery := (cut 63 u).2,
             ForceQuery := decide (u.count 63 = 1 ∧ u.getLast? = some 63) }

/-- The function `http.NewRequest(method, url, body)` for the methods used here (all
valid): `nil` request when `url.Parse` rejects the URL, otherwise a request with the parsed
URL, an empty header and the background context. -/
def NewRequest {τ : Type} (L : Lib τ) (method url : Bytes) (body : Option Multipart) :
    Option Request :=
  match Parse L url with
  | none => none
  | some u =>
    some { Method := method, URL := u, Body := body, Header := [], ctx := Context.background }

/-- The method `http.Header.Set` on a key already in canonical form. -/
def Request.setHeader (r : Request) (key value : Bytes) : Request :=
  { r with Header := Values.Set r.Header key value }

/-- The method `(*http.Request).WithContext`. -/
def Request.WithContext (r : Request) (ctx : Context) : Request :=
  { r with ctx := ctx }

/-- The test `strings.ContainsAny(b, "()<>@,;:\\\"/[]?= ")` of `FormDataContentType`. -/
def needsQuote (boundary : Bytes) : Bool :=
  boundary.any (fun c => c ∈ str "()<>@,;:\\\"/[]?= ")

/-- The method `multipart.Writer.FormDataContentType`: the boundary is put in double quotes
when it contains one of `()<>@,;:\"/[]?= `. -/
def FormDataContentType (boundary : Bytes) : Bytes :=
  let b := if needsQuote boundary then 34 :: boundary ++ [34] else boundary
  str "multipart/form-data; boundary=" ++ b

/-! ## client.go -/

/-- The struct `Client` of client.go. -/
structure Client where
  Client : HTTPClient
  BaseURL : Bytes
  Key : Bytes
  Token : Bytes
  testMode : Bool
  ctx : Option Context

/-- How a call ends: a run-time panic, or a return with the error value and the state of
the target. -/
inductive Outcome (τ : Type) where
  | panic : Outcome τ
  | ret (err : Option GoError) (target : τ) : Outcome τ
  deriving DecidableEq, Repr

/-- A call of one of the operations: the request handed to `c.Client.Do`, if the call got
that far, and how the call ended. -/
structure Run (τ : Type) where
  sent : Option Request
  out : Outcome τ
  deriving DecidableEq, Repr

/-- The method `Client.do` (client.go:199-218).  `req` is a pointer and is `none` when
`http.NewRequest` failed. -/
def Client.do {τ : Type} (L : Lib τ) (c : Clienty.Client) (req : Option Request) (_url : Bytes)
    (target : τ) : Run τ :=
  match req with
  | none => ⟨none, Outcome.panic⟩            -- c.Client.Do(nil) dereferences req
  | some r =>
    match c.Client r with                    -- resp, err := c.Client.Do(req)
    | (none, _err) =>                        -- if err != nil { } : empty body
      ⟨some r, Outcome.panic⟩                -- defer resp.Body.Close() on a nil resp
    | (some resp, _err) =>
      -- if resp.StatusCode < 200 || resp.StatusCode > 299 { } : empty body
      let b := resp.Body.data                -- b, err := ioutil.ReadAll(resp.Body)
      -- if err != nil { } : empty body
      let t := (L.unmarshal b target).1      -- err = json.Unmarshal(b, target)
      -- if err != nil { } : empty body
      ⟨some r, Outcome.ret none t⟩           -- return nil

/-- The method `Client.Get` (client.go:34-60). -/
def Client.Get {τ : Type} (L : Lib τ) (c : Clienty.Client) (path : Bytes) (args : Arguments)
    (target : τ) : Run τ :=
  let params := args.ToURLValues
  let params := if c.Key ≠ [] then params.Set (str "key") c.Key else params
  let params := if c.Token ≠ [] then params.Set (str "token") c.Token else params
  let url := c.BaseURL ++ str "/" ++ path
  let urlWithParams := url ++ str "?" ++ params.Encode
  match NewRequest L (str "GET") urlWithParams none with    -- if err != nil { } : empty
  | none => ⟨none, Outcome.panic⟩                 -- req.WithContext on a nil req
  | some req =>
    match c.ctx with
    | none => ⟨none, Outcome.panic⟩               -- WithContext panics on a nil context
    | some ctx => c.do L (some (req.WithContext ctx)) url target

/-- The method `Client.Put` (client.go:66-91). -/
def Client.Put {τ : Type} (L : Lib τ) (c : Clienty.Client) (path : Bytes) (args : Arguments)
    (target : τ) : Run τ :=
  let params := args.ToURLValues
  let params := if c.Key ≠ [] then params.Set (str "key") c.Key else params
  let params := if c.Token ≠ [] then params.Set (str "token") c.Token else params
  let url := c.BaseURL ++ str "/" ++ path
  let urlWithParams := url ++ str "?" ++ params.Encode
  let req := NewRequest L (str "PUT") urlWithParams none    -- if err != nil { } : empty
  c.do L req url target

/-- The method `Client.Post` (client.go:97-121). -/
def Client.Post {τ : Type} (L : Lib τ) (c : Clienty.Client) (path : Bytes) (args : Arguments)
    (target : τ) : Run τ :=
  let params := args.ToURLValues
  let params := if c.Key ≠ [] then params.Set (str "key") c.Key else params
  let params := if c.Token ≠ [] then params.Set (str "token") c.Token else params
  let url := c.BaseURL ++ str "/" ++ path
  let urlWithParams := url ++ str "?" ++ params.Encode
  match NewRequest L (str "POST") urlWithParams none with   -- if err != nil { } : empty
  | none => ⟨none, Outcome.panic⟩                 -- req.Header on a nil req
  | some req =>
    let req := req.setHeader (str "Content-Type") (str "application/x-www-form-urlencoded")
    c.do L (some req) url target

/-- The method `Client.PostWithBody` (client.go:128-167).  Writing to the `bytes.Buffer`
cannot fail, so `CreateFormFile` and `writer.Close` succeed and `io.Copy` fails exactly
when reading `file` fails. -/
def Client.PostWithBody {τ : Type} (L : Lib τ) (c : Clienty.Client) (path : Bytes)
    (args : Arguments) (target : τ) (filename : Bytes) (file : Reader) : Run τ :=
  match file.err with
  | some e => ⟨none, Outcome.ret (some e) target⟩           -- _, err = io.Copy(part, file)
  | none =>
    let body : Multipart :=
      { boundary := L.boundary, fieldname := str "file", filename := filename,
        content := file.data }
    let params := args.ToURLValues
    let params := if c.Key ≠ [] then params.Set (str "key") c.Key else params
    let params := if c.Token ≠ [] then params.Set (str "token") c.Token else params
    let url := c.BaseURL ++ str "/" ++ path
    let urlWithParams := url ++ str "?" ++ params.Encode
    match NewRequest L (str "POST") urlWithParams (some body) with
    | none => ⟨none, Outcome.panic⟩               -- req.Header on a nil req
    | some req =>
      let req := req.setHeader (str "Content-Type") (FormDataContentType L.boundary)
      c.do L (some req) url target

/-- The method `Client.Delete` (client.go:173-197). -/
def Client.Delete {τ : Type} (L : Lib τ) (c : Clienty.Client) (path : Bytes) (args : Arguments)
    (target : τ) : Run τ :=
  let params := args.ToURLValues
  let params := if c.Key ≠ [] then params.Set (str "key") c.Key else params
  let params := if c.Token ≠ [] then params.Set (str "token") c.Token else params
  let url := c.BaseURL ++ str "/" ++ path
  let urlWithParams := url ++ str "?" ++ params.Encode
  let req := NewRequest L (str "DELETE") urlWithParams none -- if err != nil { } : empty
  c.do L req url target

/-! ## board.go and encoding/json at `*Board` -/

/-- The struct `Board` of board.go; its zero value is `Board.zero`. -/
structure Board where
  ID : Bytes
  Name : Bytes
  Desc : Bytes
  Closed : Bool
  IDOrganization : Bytes
  Pinned : Bool
  Starred : Bool
  URL : Bytes
  ShortURL : Bytes
  deriving DecidableEq, Repr

/-- The zero value of `Board`. -/
def Board.zero : Board :=
  { ID := [], Name := [], Desc := [], Closed := false, IDOrganization := [],
    Pinned := false, Starred := false, URL := [], ShortURL := [] }

/-- A parsed JSON value. -/
inductive Json where
  | null : Json
  | bool (b : Bool) : Json
  | num (raw : Bytes) : Json
  | string (s : Bytes) : Json
  | arr (xs : List Json) : Json
  | obj (members : List (Bytes × Json)) : Json

/-- JSON whitespace (space, tab, line feed, carriage return) is skipped. -/
def skipWS : Bytes → Bytes
  | [] => []
  | b :: rest => if b = 32 ∨ b = 9 ∨ b = 10 ∨ b = 13 then skipWS rest else b :: rest

/-- The byte a one-letter escape stands for (`\"`, `\\`, `\/`, `\b`, `\f`, `\n`, `\r`, `\t`). -/
def simpleEscape (e : UInt8) : Option UInt8 :=
  if e = 34 then some 34 else if e = 92 then some 92 else if e = 47 then some 47
  else if e = 98 then some 8 else if e = 102 then some 12 else if e = 110 then some 10
  else if e = 114 then some 13 else if e = 116 then some 9 else none

/-- A JSON string after its opening quote: the decoded bytes and the input after the closing
quote.  Control bytes are rejected.  Outside the fragment modelled: `\u` escapes (rejected
here) and the replacement of invalid UTF-8 (bytes are kept as they are). -/
def parseString : Bytes → Option (Bytes × Bytes)
  | [] => none
  | b :: rest =>
    if b = 34 then some ([], rest)
    else if b = 92 then
      match rest with
      | [] => none
      | e :: rest1 =>
        match simpleEscape e, parseString rest1 with
        | some x, some (s, r) => some (x :: s, r)
        | _, _ => none
    else if b < 32 then none
    else
      match parseString rest with
      | some (s, r) => some (b :: s, r)
      | none => none

/-- Leading decimal digits and the rest. -/
def takeDigits : Bytes → Bytes × Bytes
  | [] => ([], [])
  | b :: rest =>
    if 48 ≤ b ∧ b ≤ 57 then (b :: (takeDigits rest).1, (takeDigits rest).2)
    else ([], b :: rest)

/-- A JSON number `-?(0|[1-9][0-9]*)(\.[0-9]+)?([eE][+-]?[0-9]+)?`: its text and the rest. -/
def parseNumber (s : Bytes) : Option (Bytes × Bytes) :=
  let (sign, s1) := match s with
    | 45 :: r => ([(45 : UInt8)], r)
    | r => ([], r)
  let (int, s2) := takeDigits s1
  if int = [] ∨ (int.length > 1 ∧ int.head? = some 48) then none
  else
    let fracPart : Option (Bytes × Bytes) := match s2 with
      | 46 :: r =>
        let (ds, r2) := takeDigits r
        if ds = [] then none else some (46 :: ds, r2)
      | r => some ([], r)
    match fracPart with
    | none => none
    | some (frac, s3) =>
      let expPart : Option (Bytes × Bytes) := match s3 with
        | e :: r =>
          if e = 101 ∨ e = 69 then
            let (sg, r1) := match r with
              | x :: r0 => if x = 43 ∨ x = 45 then ([x], r0) else ([], x :: r0)
              | [] => ([], [])
            let (ds, r2) := takeDigits r1
            if ds = [] then none else some (e :: sg ++ ds, r2)
          else some ([], e :: r)
        | [] => some ([], [])
      match expPart with
      | none => none
      | some (ex, s4) => some (sign ++ int ++ frac ++ ex, s4)

mutual
/-- One JSON value and the input after it; `none` is a syntax error.  The fuel bounds the
number of nested and consecutive values; `parseJSON` starts with the length of the input
plus one. -/
def parseValue : Nat → Bytes → Option (Json × Bytes)
  | 0, _ => none
  | fuel + 1, s =>
    match skipWS s with
    | 110 :: 117 :: 108 :: 108 :: rest => some (Json.null, rest)
    | 116 :: 114 :: 117 :: 101 :: rest => some (Json.bool true, rest)
    | 102 :: 97 :: 108 :: 115 :: 101 :: rest => some (Json.bool false, rest)
    | 34 :: rest =>
      match parseString rest with
      | some (x, r) => some (Json.string x, r)
      | none => none
    | 91 :: rest =>
      match skipWS rest with
      | 93 :: r => some (Json.arr [], r)
      | _ =>
        match parseElements fuel rest with
        | some (xs, r) => some (Json.arr xs, r)
        | none => none
    | 123 :: rest =>
      match skipWS rest with
      | 125 :: r => some (Json.obj [], r)
      | _ =>
        match parseMembers fuel rest with
        | some (ms, r) => some (Json.obj ms, r)
        | none => none
    | s1 =>
      match parseNumber s1 with
      | some (x, r) => some (Json.num x, r)
      | none => none
/-- The elements of a non-empty array up to and including the closing bracket. -/
def parseElements : Nat → Bytes → Option (List Json × Bytes)
  | 0, _ => none
  | fuel + 1, s =>
    match parseValue fuel s with
    | none => none
    | some (x, r) =>
      match skipWS r with
      | 93 :: r1 => some ([x], r1)
      | 44 :: r1 =>
        match parseElements fuel r1 with
        | some (xs, r2) => some (x :: xs, r2)
        | none => none
      | _ => none
/-- The members of a non-empty object up to and including the closing brace. -/
def parseMembers : Nat → Bytes → Option (List (Bytes × Json) × Bytes)
  | 0, _ => none
  | fuel + 1, s =>
    match skipWS s with
    | 34 :: r0 =>
      match parseString r0 with
      | none => none
      | some (k, r1) =>
        match skipWS r1 with
        | 58 :: r2 =>
          match parseValue fuel r2 with
          | none => none
          | some (x, r3) =>
            match skipWS r3 with
            | 125 :: r4 => some ([(k, x)], r4)
            | 44 :: r4 =>
              match parseMembers fuel r4 with
              | some (ms, r5) => some ((k, x) :: ms, r5)
              | none => none
            | _ => none
        | _ => none
    | _ => none
end

/-- A whole JSON text: one value surrounded by whitespace (what `checkValid` accepts). -/
def parseJSON (data : Bytes) : Option Json :=
  match parseValue (data.length + 1) data with
  | some (x, rest) => if skipWS rest = [] then some x else none
  | none => none

/-- ASCII lower-casing, used for the case-insensitive match of member names. -/
def lowerASCII (s : Bytes) : Bytes := s.map (fun b => if 65 ≤ b ∧ b ≤ 90 then b + 32 else b)

/-- A JSON value stored into a `string` field: a string is stored, `null` has no effect,
anything else is a type error and leaves the field. -/
def intoString (old : Bytes) : Json → Bytes × Option GoError
  | Json.string s => (s, none)
  | Json.null => (old, none)
  | _ => (old, some "json: cannot unmarshal into Go struct field of type string")

/-- A JSON value stored into a `bool` field. -/
def intoBool (old : Bool) : Json → Bool × Option GoError
  | Json.bool b => (b, none)
  | Json.null => (old, none)
  | _ => (old, some "json: cannot unmarshal into Go struct field of type bool")

/-- One object member decoded into the `Board` field whose `json` tag matches the member
name (case-insensitively); a member matching no tag is ignored. -/
def Board.setMember (b : Board) (name : Bytes) (x : Json) : Board × Option GoError :=
  let n := lowerASCII name
  if n = str "id" then ({ b with ID := (intoString b.ID x).1 }, (intoString b.ID x).2)
  else if n = str "name" then ({ b with Name := (intoString b.Name x).1 }, (intoString b.Name x).2)
  else if n = str "desc" then ({ b with Desc := (intoString b.Desc x).1 }, (intoString b.Desc x).2)
  else if n = str "closed" then
    ({ b with Closed := (intoBool b.Closed x).1 }, (intoBool b.Closed x).2)
  else if n = str "idorganization" then
    ({ b with IDOrganization := (intoString b.IDOrganization x).1 },
      (intoString b.IDOrganization x).2)
  else if n = str "pinned" then
    ({ b with Pinned := (intoBool b.Pinned x).1 }, (intoBool b.Pinned x).2)
  else if n = str "starred" then
    ({ b with Starred := (intoBool b.Starred x).1 }, (intoBool b.Starred x).2)
  else if n = str "url" then ({ b with URL := (intoString b.URL x).1 }, (intoString b.URL x).2)
  else if n = str "shorturl" then
    ({ b with ShortURL := (intoString b.ShortURL x).1 }, (intoString b.ShortURL x).2)
  else (b, none)

/-- The members of an object decoded in order; the first error is the one kept. -/
def Board.setMembers (b : Board) : List (Bytes × Json) → Board × Option GoError
  | [] => (b, none)
  | (name, x) :: rest =>
    let (b1, e1) := b.setMember name x
    let (b2, e2) := Board.setMembers b1 rest
    (b2, e1 <|> e2)

/-- A model of `json.Unmarshal(data, target)` for a non-nil `target *Board`, on the fragment
of JSON described at `parseString`: a text that is not valid JSON is a syntax error and
leaves the target untouched; an object fills the fields its members name, a later member
overwriting an earlier one, and the first type error is the one returned; `null` has no
effect; any other value is a type error. -/
def unmarshalBoard (data : Bytes) (target : Board) : Board × Option GoError :=
  match parseJSON data with
  | none => (target, some "json: syntax error")
  | some (Json.obj members) => target.setMembers members
  | some Json.null => (target, none)
  | some _ => (target, some "json: cannot unmarshal into Go value of type clienty.Board")

/-! ## Vocabulary of the specification -/

/-- The five operations, `PostWithBody` with its two extra arguments. -/
inductive Op where
  | get : Op
  | put : Op
  | post : Op
  | postWithBody (filename : Bytes) (file : Reader) : Op
  | delete : Op
  deriving DecidableEq, Repr

/-- A call of the operation `op`. -/
def Client.call {τ : Type} (L : Lib τ) (c : Clienty.Client) (op : Op) (path : Bytes)
    (args : Arguments) (target : τ) : Run τ :=
  match op with
  | Op.get => c.Get L path args target
  | Op.put => c.Put L path args target
  | Op.post => c.Post L path args target
  | Op.postWithBody filename file => c.PostWithBody L path args target filename file
  | Op.delete => c.Delete L path args target

/-- The HTTP method the specification gives each operation. -/
def Op.method : Op → Bytes
  | Op.get => str "GET"
  | Op.put => str "PUT"
  | Op.post => str "POST"
  | Op.postWithBody _ _ => str "POST"
  | Op.delete => str "DELETE"

/-- The specification's step 2 on a parameter set: `key` is set when the key credential is
non-empty, then `token` when the token credential is non-empty. -/
def withCredentials (c : Clienty.Client) (v : Values) : Values :=
  let v := if c.Key ≠ [] then v.Set (str "key") c.Key else v
  if c.Token ≠ [] then v.Set (str "token") c.Token else v

/-- The `Content-Type` header name. -/
def contentType : Bytes := str "Content-Type"

/-- The form-urlencoded content type. -/
def formURLEncoded : Bytes := str "application/x-www-form-urlencoded"

/-- Whether a header (or parameter set) has an entry under `key`. -/
def Values.has (v : Values) (key : Bytes) : Bool := v.any (fun p => p.1 = key)

/-- The URL string the specification's step 3 prescribes:
`base + "/" + path + "?" + encodedParams` with the parameters of steps 1 and 2. -/
def specURL (c : Clienty.Client) (path : Bytes) (args : Arguments) : Bytes :=
  c.BaseURL ++ str "/" ++ path ++ str "?" ++ (withCredentials c args.ToURLValues).Encode

/-- The request an operation builds around the parsed URL `u`, with `ctx` the context `Get`
attaches (used to name requests in the lemmas and concrete runs). -/
def builtRequest {τ : Type} (L : Lib τ) (op : Op) (u : URL) (ctx : Context) : Request :=
  match op with
  | Op.get => ⟨str "GET", u, none, [], ctx⟩
  | Op.put => ⟨str "PUT", u, none, [], Context.background⟩
  | Op.post => ⟨str "POST", u, none, [(contentType, [formURLEncoded])], Context.background⟩
  | Op.postWithBody filename file =>
    ⟨str "POST", u, some ⟨L.boundary, str "file", filename, file.data⟩,
      [(contentType, [FormDataContentType L.boundary])], Context.background⟩
  | Op.delete => ⟨str "DELETE", u, none, [], Context.background⟩

/-- The specification's success range 200..299. -/
def successStatus (code : Int) : Prop := 200 ≤ code ∧ code ≤ 299

instance (code : Int) : Decidable (successStatus code) := by
  unfold successStatus; infer_instance

/-! ## Concrete runs -/

/-- The constant `DefaultBaseURL` of client.go. -/
def DefaultBaseURL : Bytes := str "https://api.trello.com/1"

/-- A transport that answers every request with `resp`. -/
def answering (resp : Response) : HTTPClient := fun _ => (some resp, none)

/-- A transport that fails on every request: no response and the error `e`. -/
def failing (e : GoError) : HTTPClient := fun _ => (none, some e)

/-- A client with both credentials and a caller-derived context. -/
def sampleClient (transport : HTTPClient) : Clienty.Client :=
  { Client := transport, BaseURL := DefaultBaseURL, Key := str "k1", Token := str "t1",
    testMode := false, ctx := some (Context.derived 1) }

/-- A client without credentials. -/
def anonymousClient (transport : HTTPClient) : Clienty.Client :=
  { Client := transport, BaseURL := DefaultBaseURL, Key := [], Token := [],
    testMode := false, ctx := some (Context.derived 1) }

/-- The library of the concrete runs: the target is a `*Board`, the boundary is hexadecimal,
and every location is accepted and kept as its text, which is how `url.Parse` treats the
locations of the concrete runs (`https://api.trello.com/1/boards` and the like). -/
def sampleLib : Lib Board :=
  { parseLocation := fun loc frag => some ⟨loc ++ (if frag = [] then [] else 35 :: frag)⟩,
    boundary := str "5f1c0a9e", unmarshal := unmarshalBoard }

/-- The parsed URL of the concrete runs with location text `loc` and raw query `q`. -/
def sampleURL (loc q : Bytes) : URL := { Loc := ⟨loc⟩, RawQuery := q, ForceQuery := false }

/-- A client whose base URL has the control byte `0x7f`, which `url.Parse` rejects. -/
def badHostClient (transport : HTTPClient) : Clienty.Client :=
  { Client := transport, BaseURL := str "http://bad\x7fhost", Key := str "k1", Token := str "t1",
    testMode := false, ctx := some (Context.derived 1) }

/-- The body `{"id":"b1","name":"Board One"}`. -/
def boardOneBody : Bytes := str "\x7b\"id\":\"b1\",\"name\":\"Board One\"\x7d"

/-- The board with ID `b1` and name `Board One`, every other field zero. -/
def boardOne : Board := { Board.zero with ID := str "b1", Name := str "Board One" }

/-! ## The request pipeline -/

theorem do_sent {τ : Type} (L : Lib τ) (c : Clienty.Client) (req : Option Request)
    (url : Bytes) (t : τ) : (c.do L req url t).sent = req := by
  unfold Client.do
  cases req with
  | none => rfl
  | some r =>
    simp only
    split <;> rfl

theorem do_of_response {τ : Type} (L : Lib τ) (c : Clienty.Client) (r : Request)
    (url : Bytes) (t : τ) (resp : Response) (e : Option GoError)
    (h : c.Client r = (some resp, e)) :
    c.do L (some r) url t = ⟨some r, Outcome.ret none (L.unmarshal resp.Body.data t).1⟩ := by
  simp [Client.do, h]

theorem do_of_no_response {τ : Type} (L : Lib τ) (c : Clienty.Client) (r : Request)
    (url : Bytes) (t : τ) (e : Option GoError) (h : c.Client r = (none, e)) :
    c.do L (some r) url t = ⟨some r, Outcome.panic⟩ := by
  simp [Client.do, h]

/-- A call that hands a request to the transport ends as `do` ends on that request. -/
theorem call_eq_do {τ : Type} (L : Lib τ) (c : Clienty.Client) (op : Op) (path : Bytes)
    (args : Arguments) (t : τ) (r : Request)
    (h : (c.call L op path args t).sent = some r) :
    c.call L op path args t = c.do L (some r) (c.BaseURL ++ str "/" ++ path) t := by
  cases op with
  | get =>
    simp only [Client.call, Client.Get] at h ⊢
    split at h
    · simp at h
    · split at h
      · simp at h
      · rw [do_sent] at h
        rw [h]
  | put =>
    simp only [Client.call, Client.Put] at h ⊢
    rw [do_sent] at h
    rw [h]
  | post =>
    simp only [Client.call, Client.Post] at h ⊢
    split at h
    · simp at h
    · rw [do_sent] at h
      rw [h]
  | postWithBody filename file =>
    simp only [Client.call, Client.PostWithBody] at h ⊢
    split at h
    · simp at h
    · split at h
      · simp at h
      · rw [do_sent] at h
        rw [h]
  | delete =>
    simp only [Client.call, Client.Delete] at h ⊢
    rw [do_sent] at h
    rw [h]

theorem Get_eq {τ : Type} (L : Lib τ) (c : Clienty.Client) (path : Bytes) (args : Arguments)
    (t : τ) : c.Get L path args t =
      match NewRequest L (str "GET") (specURL c path args) none with
      | none => ⟨none, Outcome.panic⟩
      | some req =>
        match c.ctx with
        | none => ⟨none, Outcome.panic⟩
        | some ctx => c.do L (some (req.WithContext ctx)) (c.BaseURL ++ str "/" ++ path) t :=
  rfl

theorem Put_eq {τ : Type} (L : Lib τ) (c : Clienty.Client) (path : Bytes) (args : Arguments)
    (t : τ) : c.Put L path args t =
      c.do L (NewRequest L (str "PUT") (specURL c path args) none)
        (c.BaseURL ++ str "/" ++ path) t :=
  rfl

theorem Post_eq {τ : Type} (L : Lib τ) (c : Clienty.Client) (path : Bytes) (args : Arguments)
    (t : τ) : c.Post L path args t =
      match NewRequest L (str "POST") (specURL c path args) none with
      | none => ⟨none, Outcome.panic⟩
      | some req =>
        c.do L (some (req.setHeader contentType formURLEncoded)) (c.BaseURL ++ str "/" ++ path) t :=
  rfl

theorem PostWithBody_eq {τ : Type} (L : Lib τ) (c : Clienty.Client) (path : Bytes)
    (args : Arguments) (t : τ) (filename : Bytes) (file : Reader) :
    c.PostWithBody L path args t filename file =
      match file.err with
      | some e => ⟨none, Outcome.ret (some e) t⟩
      | none =>
        match NewRequest L (str "POST") (specURL c path args)
            (some ⟨L.boundary, str "file", filename, file.data⟩) with
        | none => ⟨none, Outcome.panic⟩
        | some req =>
          c.do L (some (req.setHeader contentType (FormDataContentType L.boundary)))
            (c.BaseURL ++ str "/" ++ path) t :=
  rfl

theorem Delete_eq {τ : Type} (L : Lib τ) (c : Clienty.Client) (path : Bytes) (args : Arguments)
    (t : τ) : c.Delete L path args t =
      c.do L (NewRequest L (str "DELETE") (specURL c path args) none)
        (c.BaseURL ++ str "/" ++ path) t :=
  rfl

/-- When `url.Parse` rejects the URL string no operation hands a request to the transport. -/
theorem call_sent_of_parse_none {τ : Type} (L : Lib τ) (c : Clienty.Client) (op : Op)
    (path : Bytes) (args : Arguments) (t : τ)
    (hp : Parse L (specURL c path args) = none) :
    (c.call L op path args t).sent = none := by
  cases op with
  | get => simp [Client.call, Get_eq, NewRequest, hp]
  | put => simp [Client.call, Put_eq, NewRequest, hp, do_sent]
  | post => simp [Client.call, Post_eq, NewRequest, hp]
  | postWithBody filename file =>
    cases hf : file.err <;> simp [Client.call, PostWithBody_eq, NewRequest, hp, hf]
  | delete => simp [Client.call, Delete_eq, NewRequest, hp, do_sent]

/-- What each operation hands to the transport when `url.Parse` gives `u`. -/
theorem call_sent_of_parse {τ : Type} (L : Lib τ) (c : Clienty.Client) (op : Op)
    (path : Bytes) (args : Arguments) (t : τ) (u : URL)
    (hp : Parse L (specURL c path args) = some u) :
    (c.call L op path args t).sent =
      match op with
      | Op.get =>
        match c.ctx with
        | none => none
        | some ctx => some (builtRequest L Op.get u ctx)
      | Op.postWithBody filename file =>
        match file.err with
        | some _ => none
        | none => some (builtRequest L (Op.postWithBody filename file) u Context.background)
      | op1 => some (builtRequest L op1 u Context.background) := by
  cases op with
  | get =>
    cases hc : c.ctx with
    | none => simp [Client.call, Get_eq, NewRequest, hp, hc]
    | some ctx =>
      simp [Client.call, Get_eq, NewRequest, hp, hc, do_sent, builtRequest,
        Request.WithContext]
  | put => simp [Client.call, Put_eq, NewRequest, hp, do_sent, builtRequest]
  | post =>
    simp [Client.call, Post_eq, NewRequest, hp, do_sent, builtRequest, Request.setHeader,
      Values.Set]
  | postWithBody filename file =>
    cases hf : file.err with
    | some e => simp [Client.call, PostWithBody_eq, hf]
    | none =>
      simp [Client.call, PostWithBody_eq, NewRequest, hp, hf, do_sent, builtRequest,
        Request.setHeader, Values.Set]
  | delete => simp [Client.call, Delete_eq, NewRequest, hp, do_sent, builtRequest]

/-- A request reaches the transport only if the URL parsed, and it is the built request. -/
theorem call_sent_eq {τ : Type} (L : Lib τ) (c : Clienty.Client) (op : Op) (path : Bytes)
    (args : Arguments) (t : τ) (r : Request)
    (h : (c.call L op path args t).sent = some r) :
    Parse L (specURL c path args) = some r.URL ∧
      r = builtRequest L op r.URL r.ctx ∧ (op = Op.get → c.ctx = some r.ctx) ∧
      (op ≠ Op.get → r.ctx = Context.background) ∧
      (∀ filename file, op = Op.postWithBody filename file → file.err = none) := by
  cases hp : Parse L (specURL c path args) with
  | none => rw [call_sent_of_parse_none L c op path args t hp] at h; cases h
  | some u =>
    rw [call_sent_of_parse L c op path args t u hp] at h
    cases op with
    | get =>
      cases hc : c.ctx with
      | none => simp [hc] at h
      | some ctx =>
        simp only [hc, Option.some.injEq] at h
        subst h
        simp [builtRequest]
    | put =>
      simp only [Option.some.injEq] at h
      subst h
      simp [builtRequest]
    | post =>
      simp only [Option.some.injEq] at h
      subst h
      simp [builtRequest]
    | postWithBody filename file =>
      cases hf : file.err with
      | some e => simp [hf] at h
      | none =>
        simp only [hf, Option.some.injEq] at h
        subst h
        refine ⟨rfl, rfl, fun h => (by cases h), fun _ => rfl, ?_⟩
        intro fn fl hfl
        cases hfl
        exact hf
    | delete =>
      simp only [Option.some.injEq] at h
      subst h
      simp [builtRequest]

/-- Once the URL parses, the context is set (needed by `Get` only) and the file reads
without error (needed by `PostWithBody` only), the call hands a request to the transport. -/
theorem call_sends {τ : Type} (L : Lib τ) (c : Clienty.Client) (op : Op) (path : Bytes)
    (args : Arguments) (t : τ)
    (hp : Parse L (specURL c path args) ≠ none) (hc : op = Op.get → c.ctx ≠ none)
    (hf : ∀ filename file, op = Op.postWithBody filename file → file.err = none) :
    ∃ r, (c.call L op path args t).sent = some r := by
  cases hu : Parse L (specURL c path args) with
  | none => exact absurd hu hp
  | some u =>
    rw [call_sent_of_parse L c op path args t u hu]
    cases op with
    | get =>
      cases hctx : c.ctx with
      | none => exact absurd hctx (hc rfl)
      | some ctx => exact ⟨_, rfl⟩
    | put => exact ⟨_, rfl⟩
    | post => exact ⟨_, rfl⟩
    | postWithBody filename file =>
      simp only [hf filename file rfl]
      exact ⟨_, rfl⟩
    | delete => exact ⟨_, rfl⟩

theorem formDataContentType_ne_form (b : Bytes) :
    FormDataContentType b ≠ str "application/x-www-form-urlencoded" := by
  have h1 : str "multipart/form-data; boundary=" = 109 :: str "ultipart/form-data; boundary=" := by
    decide
  have h2 : str "application/x-www-form-urlencoded" =
      97 :: str "pplication/x-www-form-urlencoded" := by decide
  intro h
  rw [h2] at h
  simp only [FormDataContentType, h1, List.cons_append, List.cons.injEq] at h
  exact absurd h.1 (by decide)

/-! ## Query strings: `url.ParseQuery` reads back what `url.Values.Encode` writes -/

/-- Every byte is `⟨BitVec.ofFin n⟩` for some `n < 256`, so a property of bytes can be
checked on the 256 values. -/
theorem forall_byte {P : UInt8 → Prop} (h : ∀ n : Fin 256, P ⟨BitVec.ofFin n⟩) (b : UInt8) :
    P b :=
  h b.val

set_option maxRecDepth 100000 in
theorem byte_facts (b : UInt8) :
    (unreserved b = true → b ≠ 37 ∧ b ≠ 43) ∧
    unhex (upperhex (b >>> 4)) = some (b >>> 4) ∧
    unhex (upperhex (b &&& 15)) = some (b &&& 15) ∧
    ((b >>> 4) <<< 4 ||| (b &&& 15)) = b ∧
    ∀ x ∈ escapeByte b, x ≠ 38 ∧ x ≠ 61 ∧ x ≠ 59 ∧ x ≠ 35 ∧ x ≠ 63 := by
  revert b
  apply forall_byte
  decide

theorem escapeByte_safe (b x : UInt8) (h : x ∈ escapeByte b) :
    x ≠ 38 ∧ x ≠ 61 ∧ x ≠ 59 ∧ x ≠ 35 ∧ x ≠ 63 :=
  (byte_facts b).2.2.2.2 x h

theorem QueryEscape_safe (s : Bytes) (x : UInt8) (h : x ∈ QueryEscape s) :
    x ≠ 38 ∧ x ≠ 61 ∧ x ≠ 59 ∧ x ≠ 35 ∧ x ≠ 63 := by
  simp only [QueryEscape, List.mem_flatMap] at h
  obtain ⟨b, _, hx⟩ := h
  exact escapeByte_safe b x hx

theorem QueryUnescape_cons (b : UInt8) (rest : Bytes) :
    QueryUnescape (b :: rest) =
      if b = 37 then
        match rest with
        | h :: l :: rest1 =>
          match unhex h, unhex l, QueryUnescape rest1 with
          | some x, some y, some s => some ((x <<< 4 ||| y) :: s)
          | _, _, _ => none
        | _ => none
      else if b = 43 then (QueryUnescape rest).map (fun s => 32 :: s)
      else (QueryUnescape rest).map (fun s => b :: s) := by
  rcases rest with _ | ⟨h, _ | ⟨l, rest1⟩⟩ <;> rfl

theorem QueryUnescape_escapeByte (b : UInt8) (rest : Bytes) :
    QueryUnescape (escapeByte b ++ rest) = (QueryUnescape rest).map (fun s => b :: s) := by
  obtain ⟨h1, h2, h3, h4, _⟩ := byte_facts b
  unfold escapeByte
  by_cases hsp : b = 32
  · subst hsp
    rw [if_pos rfl, List.singleton_append, QueryUnescape_cons, if_neg (by decide), if_pos rfl]
  · rw [if_neg hsp]
    by_cases hu : unreserved b = true
    · rw [if_pos hu]
      obtain ⟨n1, n2⟩ := h1 hu
      rw [List.singleton_append, QueryUnescape_cons, if_neg n1, if_neg n2]
    · rw [if_neg hu]
      simp only [List.cons_append, List.nil_append]
      rw [QueryUnescape_cons, if_pos rfl]
      simp only [h2, h3]
      cases QueryUnescape rest <;> simp [h4]

theorem QueryUnescape_QueryEscape (s : Bytes) : QueryUnescape (QueryEscape s) = some s := by
  induction s with
  | nil => rfl
  | cons b s ih =>
    have : QueryEscape (b :: s) = escapeByte b ++ QueryEscape s := by
      simp [QueryEscape]
    rw [this, QueryUnescape_escapeByte, ih]
    rfl

theorem cut_append (sep : UInt8) (a b : Bytes) (h : sep ∉ a) :
    cut sep (a ++ sep :: b) = (a, b) := by
  induction a with
  | nil => simp [cut]
  | cons x a ih =>
    simp only [List.mem_cons, not_or] at h
    have hx : x ≠ sep := fun e => h.1 e.symm
    simp [cut, hx, ih h.2]

theorem splitOn_of_not_mem (sep : UInt8) (a : Bytes) (h : sep ∉ a) : splitOn sep a = [a] := by
  induction a with
  | nil => rfl
  | cons x a ih =>
    simp only [List.mem_cons, not_or] at h
    have hx : x ≠ sep := fun e => h.1 e.symm
    simp [splitOn, hx, ih h.2]

theorem splitOn_append (sep : UInt8) (a rest : Bytes) (h : sep ∉ a) :
    splitOn sep (a ++ sep :: rest) = a :: splitOn sep rest := by
  induction a with
  | nil => simp [splitOn]
  | cons x a ih =>
    simp only [List.mem_cons, not_or] at h
    have hx : x ≠ sep := fun e => h.1 e.symm
    simp [splitOn, hx, ih h.2]

theorem splitOn_joinAmp (segs : List Bytes) (hne : segs ≠ [])
    (h : ∀ seg ∈ segs, (38 : UInt8) ∉ seg) : splitOn 38 (joinAmp segs) = segs := by
  induction segs with
  | nil => exact absurd rfl hne
  | cons s rest ih =>
    cases rest with
    | nil => simpa [joinAmp] using splitOn_of_not_mem 38 s (h s (by simp))
    | cons u rest =>
      have hs := h s (by simp)
      have ih1 := ih (by simp) (fun seg hseg => h seg (List.mem_cons_of_mem _ hseg))
      simp only [joinAmp]
      rw [splitOn_append 38 s _ hs, ih1]

/-- The segment `Encode` writes for the pair `(name, value)`. -/
theorem parseSegment_encoded (name value : Bytes) :
    parseSegment (QueryEscape name ++ 61 :: QueryEscape value) = some (name, value) := by
  have hcut : cut 61 (QueryEscape name ++ 61 :: QueryEscape value) =
      (QueryEscape name, QueryEscape value) :=
    cut_append 61 _ _ (fun hm => (QueryEscape_safe name 61 hm).2.1 rfl)
  have hsemi : (59 : UInt8) ∉ QueryEscape name ++ 61 :: QueryEscape value := by
    intro hm
    rcases List.mem_append.1 hm with h1 | h1
    · exact (QueryEscape_safe name 59 h1).2.2.1 rfl
    · rcases List.mem_cons.1 h1 with h2 | h2
      · exact absurd h2 (by decide)
      · exact (QueryEscape_safe value 59 h2).2.2.1 rfl
  have hne : QueryEscape name ++ 61 :: QueryEscape value ≠ [] := by simp
  unfold parseSegment
  rw [if_neg hne, if_neg hsemi, hcut]
  simp [QueryUnescape_QueryEscape]

theorem encoded_no_amp (name value : Bytes) :
    (38 : UInt8) ∉ QueryEscape name ++ 61 :: QueryEscape value := by
  intro hm
  rcases List.mem_append.1 hm with h1 | h1
  · exact (QueryEscape_safe name 38 h1).1 rfl
  · rcases List.mem_cons.1 h1 with h2 | h2
    · exact absurd h2 (by decide)
    · exact (QueryEscape_safe value 38 h2).1 rfl

/-- Reading back the `&`-joined encoded segments of a list of pairs gives the pairs. -/
theorem queryParams_joinAmp (pairs : List (Bytes × Bytes)) :
    queryParams (joinAmp (pairs.map (fun p => QueryEscape p.1 ++ 61 :: QueryEscape p.2))) =
      pairs := by
  cases pairs with
  | nil => decide
  | cons p rest =>
    unfold queryParams
    rw [splitOn_joinAmp _ (by simp)]
    · rw [List.filterMap_map]
      have : (parseSegment ∘ fun p : Bytes × Bytes => QueryEscape p.1 ++ 61 :: QueryEscape p.2) =
          fun p => some p := by
        funext q
        exact parseSegment_encoded q.1 q.2
      rw [this]
      simp
    · intro seg hseg
      obtain ⟨q, _, rfl⟩ := List.mem_map.1 hseg
      exact encoded_no_amp q.1 q.2

theorem segments_eq (v : Values) :
    v.segments =
      (Values.pairs (v.insertionSort (fun p q => bytesLE p.1 q.1 = true))).map
        (fun p => QueryEscape p.1 ++ 61 :: QueryEscape p.2) := by
  simp [Values.segments, Values.pairs, List.map_flatMap, Function.comp_def]

/-- The parameters read back from `v.Encode()` are the pairs of `v` with the keys sorted. -/
theorem queryParams_Encode (v : Values) :
    queryParams v.Encode = Values.pairs (v.insertionSort (fun p q => bytesLE p.1 q.1 = true)) := by
  rw [Values.Encode, segments_eq, queryParams_joinAmp]

theorem pairs_filter (l : Values) (name : Bytes) :
    (Values.pairs l).filter (fun p => p.1 = name) =
      Values.pairs (l.filter (fun p => p.1 = name)) := by
  induction l with
  | nil => rfl
  | cons p l ih =>
    have hcons : ∀ (a : Bytes × List Bytes) (m : Values),
        Values.pairs (a :: m) = a.2.map (fun x => (a.1, x)) ++ Values.pairs m := by
      intro a m; simp [Values.pairs]
    rw [hcons, List.filter_append, ih]
    by_cases h : p.1 = name
    · have : (p :: l).filter (fun p => p.1 = name) = p :: l.filter (fun p => p.1 = name) := by
        simp [h]
      rw [this, hcons]
      congr 1
      rw [List.filter_eq_self]
      intro a ha
      obtain ⟨x, _, rfl⟩ := List.mem_map.1 ha
      simpa using h
    · have : (p :: l).filter (fun p => p.1 = name) = l.filter (fun p => p.1 = name) := by
        simp [h]
      rw [this]
      have : (p.2.map (fun x => (p.1, x))).filter (fun p => p.1 = name) = [] := by
        rw [List.filter_eq_nil_iff]
        intro a ha
        obtain ⟨x, _, rfl⟩ := List.mem_map.1 ha
        simpa using h
      rw [this, List.nil_append]

theorem filter_key_of_WF (v : Values) (hv : v.WF) (name : Bytes) :
    v.filter (fun p => p.1 = name) = (v.find? (fun p => p.1 = name)).toList := by
  induction v with
  | nil => rfl
  | cons p v ih =>
    have hv1 : Values.WF v := (List.nodup_cons.1 hv).2
    have hp : p.1 ∉ v.map Prod.fst := (List.nodup_cons.1 hv).1
    by_cases h : p.1 = name
    · have hnil : v.filter (fun q => q.1 = name) = [] := by
        rw [List.filter_eq_nil_iff]
        intro q hq hqn
        apply hp
        have hqn1 : q.1 = name := by simpa using hqn
        rw [h, ← hqn1]
        exact List.mem_map_of_mem _ hq
      simp [List.filter_cons, List.find?_cons, h, hnil]
    · simp [List.filter_cons, List.find?_cons, h, ih hv1]

/-- The occurrences of `name` in `v.Encode()` are the values `v` holds under `name`. -/
theorem occurrences_Encode (v : Values) (hv : v.WF) (name : Bytes) :
    occurrences v.Encode name = (v.lookup name).map (fun x => (name, x)) := by
  unfold occurrences
  rw [queryParams_Encode, pairs_filter]
  have hperm : List.Perm ((v.insertionSort (fun p q => bytesLE p.1 q.1 = true)).filter
      (fun p => p.1 = name)) (v.filter (fun p => p.1 = name)) :=
    (List.perm_insertionSort _ v).filter _
  rw [filter_key_of_WF v hv name] at hperm
  unfold Values.lookup
  cases hf : v.find? (fun p => p.1 = name) with
  | none =>
    rw [hf] at hperm
    have := List.Perm.eq_nil hperm
    rw [this]
    rfl
  | some p =>
    rw [hf] at hperm
    have hp1 : p.1 = name := by simpa using List.find?_some hf
    have := List.perm_singleton.1 hperm
    rw [this]
    simp [Values.pairs, hp1]

theorem Set_WF (v : Values) (hv : v.WF) (key value : Bytes) : (v.Set key value).WF := by
  unfold Values.WF Values.Set
  rw [List.map_cons, List.nodup_cons]
  constructor
  · intro hm
    obtain ⟨q, hq, hqk⟩ := List.mem_map.1 hm
    have := (List.mem_filter.1 hq).2
    simp at this
    exact this hqk
  · exact (hv.sublist ((List.filter_sublist v).map Prod.fst))

theorem find_filter_ne (v : Values) (key name : Bytes) (h : name ≠ key) :
    (v.filter (fun p => p.1 ≠ key)).find? (fun p => p.1 = name) =
      v.find? (fun p => p.1 = name) := by
  induction v with
  | nil => rfl
  | cons p v ih =>
    by_cases hp : p.1 = key
    · have hpn : ¬ p.1 = name := fun e => h (e.symm.trans hp)
      rw [List.filter_cons_of_neg (by simpa using hp),
        List.find?_cons_of_neg _ (by simpa using hpn), ih]
    · rw [List.filter_cons_of_pos (by simpa using hp)]
      by_cases hpn : p.1 = name
      · rw [List.find?_cons_of_pos _ (by simpa using hpn),
          List.find?_cons_of_pos _ (by simpa using hpn)]
      · rw [List.find?_cons_of_neg _ (by simpa using hpn),
          List.find?_cons_of_neg _ (by simpa using hpn), ih]

theorem lookup_Set (v : Values) (key value name : Bytes) :
    (v.Set key value).lookup name = if name = key then [value] else v.lookup name := by
  unfold Values.lookup Values.Set
  by_cases h : name = key
  · subst h
    simp
  · have h1 : ¬ key = name := fun e => h e.symm
    rw [if_neg h, List.find?_cons_of_neg _ (by simpa using h1), find_filter_ne v key name h]

theorem foldl_Set_WF (args : Arguments) (acc : Values) (h : acc.WF) :
    (args.foldl (fun v p => Values.Set v p.1 p.2) acc).WF := by
  induction args generalizing acc with
  | nil => exact h
  | cons p rest ih => exact ih _ (Set_WF acc h p.1 p.2)

theorem ToURLValues_WF (args : Arguments) : args.ToURLValues.WF :=
  foldl_Set_WF args [] List.nodup_nil

theorem withCredentials_WF (c : Clienty.Client) (v : Values) (h : v.WF) :
    (withCredentials c v).WF := by
  unfold withCredentials
  dsimp only
  split_ifs
  · exact Set_WF _ (Set_WF _ h _ _) _ _
  · exact Set_WF _ h _ _
  · exact Set_WF _ h _ _
  · exact h

theorem value_cons (p : Bytes × Bytes) (rest : Arguments) (name : Bytes) :
    Arguments.value (p :: rest) name =
      match Arguments.value rest name with
      | some x => some x
      | none => if p.1 = name then some p.2 else none := by
  unfold Arguments.value
  rw [List.reverse_cons, List.find?_append]
  cases List.find? (fun q => decide (q.1 = name)) rest.reverse with
  | some q => rfl
  | none =>
    by_cases h : p.1 = name <;> simp [h]

theorem lookup_foldl_Set (args : Arguments) (acc : Values) (name : Bytes) :
    (args.foldl (fun v p => Values.Set v p.1 p.2) acc).lookup name =
      match Arguments.value args name with
      | some x => [x]
      | none => acc.lookup name := by
  induction args generalizing acc with
  | nil => rfl
  | cons p rest ih =>
    rw [List.foldl_cons, ih, value_cons, lookup_Set]
    cases Arguments.value rest name with
    | some x => rfl
    | none =>
      by_cases h : p.1 = name
      · simp [h]
      · have h1 : ¬ name = p.1 := fun e => h e.symm
        simp [h, h1]

/-- What `args.ToURLValues()` holds under `name`: the value `args` gives it, if any. -/
theorem lookup_ToURLValues (args : Arguments) (name : Bytes) :
    args.ToURLValues.lookup name = (Arguments.value args name).toList := by
  unfold Arguments.ToURLValues
  rw [lookup_foldl_Set]
  cases Arguments.value args name <;> rfl

theorem str_key_ne_token : str "token" ≠ str "key" := by decide

theorem cut_of_not_mem (sep : UInt8) (a : Bytes) (h : sep ∉ a) : cut sep a = (a, []) := by
  induction a with
  | nil => rfl
  | cons x a ih =>
    simp only [List.mem_cons, not_or] at h
    have hx : x ≠ sep := fun e => h.1 e.symm
    simp [cut, hx, ih h.2]

theorem joinAmp_mem (segs : List Bytes) (x : UInt8) (h : x ∈ joinAmp segs) :
    x = 38 ∨ ∃ seg ∈ segs, x ∈ seg := by
  induction segs with
  | nil => simp [joinAmp] at h
  | cons s rest ih =>
    cases rest with
    | nil => exact Or.inr ⟨s, by simp, by simpa [joinAmp] using h⟩
    | cons u rest =>
      simp only [joinAmp, List.mem_append, List.mem_cons] at h
      rcases h with h | h | h
      · exact Or.inr ⟨s, by simp, h⟩
      · exact Or.inl h
      · rcases ih h with h1 | ⟨seg, hseg, hx⟩
        · exact Or.inl h1
        · exact Or.inr ⟨seg, List.mem_cons_of_mem _ hseg, hx⟩

/-- The text `Encode` writes has no `#` and no `?`. -/
theorem Encode_safe (v : Values) (x : UInt8) (h : x ∈ v.Encode) : x ≠ 35 ∧ x ≠ 63 := by
  rcases joinAmp_mem _ x h with h1 | ⟨seg, hseg, hx⟩
  · subst h1; decide
  · rw [segments_eq] at hseg
    obtain ⟨p, _, rfl⟩ := List.mem_map.1 hseg
    rcases List.mem_append.1 hx with h2 | h2
    · exact (QueryEscape_safe p.1 x h2).2.2.2
    · rcases List.mem_cons.1 h2 with h3 | h3
      · subst h3; decide
      · exact (QueryEscape_safe p.2 x h3).2.2.2

/-- How `url.Parse` splits the URL string of an operation when neither the base URL nor the
path has a `?` or a `#`: the raw query is the encoded parameters and the location is read
from `BaseURL + "/" + path`, with no fragment. -/
theorem Parse_specURL {τ : Type} (L : Lib τ) (c : Clienty.Client) (path : Bytes)
    (args : Arguments) (u : URL)
    (hB : (63 : UInt8) ∉ c.BaseURL ∧ (35 : UInt8) ∉ c.BaseURL)
    (hP : (63 : UInt8) ∉ path ∧ (35 : UInt8) ∉ path)
    (hp : Parse L (specURL c path args) = some u) :
    u.RawQuery = (withCredentials c args.ToURLValues).Encode ∧
      L.parseLocation (c.BaseURL ++ str "/" ++ path) [] = some u.Loc := by
  have hslash : str "/" = [47] := by decide
  have hq : str "?" = [63] := by decide
  have hA63 : (63 : UInt8) ∉ c.BaseURL ++ str "/" ++ path := by
    simp [hslash, hB.1, hP.1]
  have hraw : specURL c path args =
      (c.BaseURL ++ str "/" ++ path) ++ 63 :: (withCredentials c args.ToURLValues).Encode := by
    simp [specURL, hq]
  have h35 : (35 : UInt8) ∉ specURL c path args := by
    rw [hraw]
    intro hm
    rcases List.mem_append.1 hm with h1 | h1
    · simp [hslash, hB.2, hP.2] at h1
    · rcases List.mem_cons.1 h1 with h2 | h2
      · exact absurd h2 (by decide)
      · exact (Encode_safe _ 35 h2).1 rfl
  unfold Parse at hp
  rw [cut_of_not_mem 35 _ h35] at hp
  simp only at hp
  split at hp
  · cases hp
  · rw [hraw, cut_append 63 _ _ hA63] at hp
    simp only at hp
    split at hp
    · cases hp
    · rename_i loc hloc
      simp only [Option.some.injEq] at hp
      subst hp
      exact ⟨rfl, hloc⟩

/-- A request is handed to the transport exactly when `url.Parse` accepts the URL string,
`Get` has a context and `PostWithBody` reads its file without error. -/
theorem call_sent_iff {τ : Type} (L : Lib τ) (c : Clienty.Client) (op : Op) (path : Bytes)
    (args : Arguments) (t : τ) :
    (∃ r, (c.call L op path args t).sent = some r) ↔
      (Parse L (specURL c path args) ≠ none ∧ (op = Op.get → c.ctx ≠ none) ∧
        ∀ filename file, op = Op.postWithBody filename file → file.err = none) := by
  constructor
  · rintro ⟨r, hr⟩
    obtain ⟨hp, _, hg, _, hf⟩ := call_sent_eq L c op path args t r hr
    refine ⟨by simp [hp], fun h => ?_, hf⟩
    simp [hg h]
  · rintro ⟨hp, hc, hf⟩
    exact call_sends L c op path args t hp hc hf

/-! ## The claims -/

/-- C1, as the code behaves: when the transport answers one of the five operations with a
response whose status code is outside 200..299, the operation still returns a nil error
(the status test in `do` has an empty body), so no `StatusError` reaches the caller. -/
theorem call_failure_status_returns_nil {τ : Type} (L : Lib τ) (c : Clienty.Client) (op : Op)
    (path : Bytes) (args : Arguments) (t : τ) (r : Request) (resp : Response)
    (e : Option GoError)
    (hsent : (c.call L op path args t).sent = some r)
    (hresp : c.Client r = (some resp, e))
    (_hstatus : ¬ successStatus resp.StatusCode) :
    ∃ t1, (c.call L op path args t).out = Outcome.ret none t1 := by
  rw [call_eq_do L c op path args t r hsent, do_of_response L c r _ t resp e hresp]
  exact ⟨_, rfl⟩

/-- Witness for C1: `Get` answered with status 404 returns a nil error. -/
theorem call_failure_status_returns_nil_witness :
    ¬ successStatus 404 ∧
      ((sampleClient (answering ⟨404, ⟨str "\x7b\x7d", none⟩⟩)).Get sampleLib (str "boards/b1") []
        Board.zero).out = Outcome.ret none Board.zero ∧
      ∃ t1, ((sampleClient (answering ⟨404, ⟨str "\x7b\x7d", none⟩⟩)).call sampleLib Op.get
        (str "boards/b1") [] Board.zero).out = Outcome.ret none t1 :=
  ⟨by decide, by decide,
    call_failure_status_returns_nil sampleLib (sampleClient (answering ⟨404, ⟨str "\x7b\x7d", none⟩⟩))
      Op.get (str "boards/b1") [] Board.zero
      (builtRequest sampleLib Op.get
        (sampleURL (str "https://api.trello.com/1/boards/b1") (str "key=k1&token=t1"))
        (Context.derived 1))
      ⟨404, ⟨str "\x7b\x7d", none⟩⟩ none (by decide) rfl (by decide)⟩

/-- C2, as the code behaves: when the transport answers `Get` with status 200 and a body
that `json.Unmarshal` rejects for the target, `Get` still returns a nil error (the decode
error is assigned and dropped), so no `DecodeError` reaches the caller. -/
theorem Get_decode_failure_returns_nil {τ : Type} (L : Lib τ) (c : Clienty.Client)
    (path : Bytes) (args : Arguments) (t : τ) (r : Request) (resp : Response)
    (derr : GoError)
    (hsent : (c.Get L path args t).sent = some r)
    (hresp : c.Client r = (some resp, none))
    (_hstatus : resp.StatusCode = 200)
    (_hdecode : (L.unmarshal resp.Body.data t).2 = some derr) :
    (c.Get L path args t).out = Outcome.ret none (L.unmarshal resp.Body.data t).1 := by
  have h := call_eq_do L c Op.get path args t r hsent
  simp only [Client.call] at h
  rw [h, do_of_response L c r _ t resp none hresp]

/-- Witness for C2: `Get` answered with status 200 and the malformed body `{` returns a nil
error although the decoder reports a syntax error. -/
theorem Get_decode_failure_returns_nil_witness :
    (sampleLib.unmarshal (str "\x7b") Board.zero).2 = some "json: syntax error" ∧
      ((sampleClient (answering ⟨200, ⟨str "\x7b", none⟩⟩)).Get sampleLib (str "boards/b1") []
        Board.zero).out = Outcome.ret none (sampleLib.unmarshal (str "\x7b") Board.zero).1 :=
  ⟨by decide,
    Get_decode_failure_returns_nil sampleLib (sampleClient (answering ⟨200, ⟨str "\x7b", none⟩⟩))
      (str "boards/b1") [] Board.zero
      (builtRequest sampleLib Op.get
        (sampleURL (str "https://api.trello.com/1/boards/b1") (str "key=k1&token=t1"))
        (Context.derived 1))
      ⟨200, ⟨str "\x7b", none⟩⟩ "json: syntax error" (by decide) rfl rfl (by decide)⟩

/-- C3, as the code behaves: when the transport fails (no response and an error), each of the
five operations panics on `defer resp.Body.Close()` with the nil response; the transport's
error is not returned to the caller. -/
theorem call_transport_failure_panics {τ : Type} (L : Lib τ) (c : Clienty.Client) (op : Op)
    (path : Bytes) (args : Arguments) (t : τ) (r : Request) (e : GoError)
    (hsent : (c.call L op path args t).sent = some r)
    (hfail : c.Client r = (none, some e)) :
    (c.call L op path args t).out = Outcome.panic := by
  rw [call_eq_do L c op path args t r hsent, do_of_no_response L c r _ t (some e) hfail]

/-- Witness for C3: `Get` over a transport that fails with `dial tcp: timeout` panics. -/
theorem call_transport_failure_panics_witness :
    ((sampleClient (failing "dial tcp: timeout")).call sampleLib Op.get (str "boards/b1") []
        Board.zero).sent =
      some (builtRequest sampleLib Op.get
        (sampleURL (str "https://api.trello.com/1/boards/b1") (str "key=k1&token=t1"))
        (Context.derived 1)) ∧
      ((sampleClient (failing "dial tcp: timeout")).call sampleLib Op.get (str "boards/b1") []
        Board.zero).out = Outcome.panic :=
  ⟨by decide,
    call_transport_failure_panics sampleLib (sampleClient (failing "dial tcp: timeout")) Op.get
      (str "boards/b1") [] Board.zero
      (builtRequest sampleLib Op.get
        (sampleURL (str "https://api.trello.com/1/boards/b1") (str "key=k1&token=t1"))
        (Context.derived 1))
      "dial tcp: timeout" (by decide) rfl⟩

/-- C4: when the transport answers `Get` with a status in 200..299 and a body that
`json.Unmarshal` decodes into the target without error, `Get` returns a nil error and the
target holds exactly that decoding; and whenever `url.Parse` accepts the URL string, the
client has a context and the transport answers the request `Get` builds from them with
status 200 and the body `{"id":"b1","name":"Board One"}`, `Get` hands over that request,
returns a nil error and a zero `Board` target has afterwards ID `b1`, Name `Board One` and
every other field zero. -/
theorem Get_success :
    (∀ {τ : Type} (L : Lib τ) (c : Clienty.Client) (path : Bytes) (args : Arguments) (t t1 : τ)
        (r : Request) (resp : Response),
        (c.Get L path args t).sent = some r →
        c.Client r = (some resp, none) →
        successStatus resp.StatusCode →
        L.unmarshal resp.Body.data t = (t1, none) →
        (c.Get L path args t).out = Outcome.ret none t1) ∧
      (∀ (L : Lib Board) (c : Clienty.Client) (path : Bytes) (args : Arguments)
        (ctx : Context) (u : URL),
        L.unmarshal = unmarshalBoard →
        Parse L (c.BaseURL ++ str "/" ++ path ++ str "?" ++
          (withCredentials c args.ToURLValues).Encode) = some u →
        c.ctx = some ctx →
        c.Client ⟨str "GET", u, none, [], ctx⟩ = (some ⟨200, ⟨boardOneBody, none⟩⟩, none) →
        c.Get L path args Board.zero =
          ⟨some ⟨str "GET", u, none, [], ctx⟩,
            Outcome.ret none
              { ID := str "b1", Name := str "Board One", Desc := [], Closed := false,
                IDOrganization := [], Pinned := false, Starred := false, URL := [],
                ShortURL := [] }⟩) := by
  have key : ∀ {τ : Type} (L : Lib τ) (c : Clienty.Client) (path : Bytes) (args : Arguments)
      (t t1 : τ) (r : Request) (resp : Response),
      (c.Get L path args t).sent = some r →
      c.Client r = (some resp, none) →
      L.unmarshal resp.Body.data t = (t1, none) →
      c.Get L path args t = ⟨some r, Outcome.ret none t1⟩ := by
    intro τ L c path args t t1 r resp hsent hresp hdec
    have h := call_eq_do L c Op.get path args t r hsent
    simp only [Client.call] at h
    rw [h, do_of_response L c r _ t resp none hresp, hdec]
  refine ⟨fun L c path args t t1 r resp hsent hresp _ hdec => by
    rw [key L c path args t t1 r resp hsent hresp hdec], ?_⟩
  intro L c path args ctx u hL hp hc hresp
  have hsent : (c.Get L path args Board.zero).sent = some ⟨str "GET", u, none, [], ctx⟩ := by
    have := call_sent_of_parse L c Op.get path args Board.zero u hp
    simpa [Client.call, hc, builtRequest] using this
  have hdec : unmarshalBoard boardOneBody Board.zero =
      ({ ID := str "b1", Name := str "Board One", Desc := [], Closed := false,
         IDOrganization := [], Pinned := false, Starred := false, URL := [],
         ShortURL := [] }, none) := by decide
  exact key L c path args Board.zero _ _ _ hsent hresp (by rw [hL]; exact hdec)

/-- Witness for C4: the first part at status 201 and the body
`{"name":"Renamed","closed":true}` decoded into a board that already has an ID, and the
second part at the client of the concrete runs. -/
theorem Get_success_witness :
    successStatus 201 ∧
      ((sampleClient (answering ⟨201, ⟨str "\x7b\"name\":\"Renamed\",\"closed\":true\x7d", none⟩⟩)).Get
        sampleLib (str "boards/b1") [(str "fields", str "name,closed")] boardOne).out =
        Outcome.ret none { boardOne with Name := str "Renamed", Closed := true } ∧
      (sampleClient (answering ⟨200, ⟨boardOneBody, none⟩⟩)).Get sampleLib (str "boards/b1") []
        Board.zero =
        ⟨some ⟨str "GET",
            sampleURL (str "https://api.trello.com/1/boards/b1") (str "key=k1&token=t1"), none,
            [], Context.derived 1⟩,
          Outcome.ret none
            { ID := str "b1", Name := str "Board One", Desc := [], Closed := false,
              IDOrganization := [], Pinned := false, Starred := false, URL := [],
              ShortURL := [] }⟩ :=
  ⟨by decide,
    Get_success.1 sampleLib
      (sampleClient (answering ⟨201, ⟨str "\x7b\"name\":\"Renamed\",\"closed\":true\x7d", none⟩⟩))
      (str "boards/b1") [(str "fields", str "name,closed")] boardOne
      { boardOne with Name := str "Renamed", Closed := true }
      (builtRequest sampleLib Op.get
        (sampleURL (str "https://api.trello.com/1/boards/b1")
          (str "fields=name%2Cclosed&key=k1&token=t1"))
        (Context.derived 1))
      ⟨201, ⟨str "\x7b\"name\":\"Renamed\",\"closed\":true\x7d", none⟩⟩
      (by decide) rfl (by decide) (by decide),
    Get_success.2 sampleLib (sampleClient (answering ⟨200, ⟨boardOneBody, none⟩⟩))
      (str "boards/b1") [] (Context.derived 1)
      (sampleURL (str "https://api.trello.com/1/boards/b1") (str "key=k1&token=t1"))
      rfl (by decide) rfl rfl⟩

/-- C5, as the code behaves: when the transport answers `Get` with a status outside 200..299,
`Get` decodes the response body into the target all the same, so the target afterwards is
whatever `json.Unmarshal` makes of the body, not what it was before the call. -/
theorem Get_failure_status_decodes_into_target {τ : Type} (L : Lib τ) (c : Clienty.Client)
    (path : Bytes) (args : Arguments) (t : τ) (r : Request) (resp : Response)
    (e : Option GoError)
    (hsent : (c.Get L path args t).sent = some r)
    (hresp : c.Client r = (some resp, e))
    (_hstatus : ¬ successStatus resp.StatusCode) :
    (c.Get L path args t).out = Outcome.ret none (L.unmarshal resp.Body.data t).1 := by
  have h := call_eq_do L c Op.get path args t r hsent
  simp only [Client.call] at h
  rw [h, do_of_response L c r _ t resp e hresp]

/-- Witness for C5: `Get` answered with status 404 and the body
`{"id":"b1","name":"Board One"}` turns a zero `Board` target into the board `b1`. -/
theorem Get_failure_status_decodes_into_target_witness :
    ¬ successStatus 404 ∧ boardOne ≠ Board.zero ∧
      (sampleLib.unmarshal boardOneBody Board.zero).1 = boardOne ∧
      ((sampleClient (answering ⟨404, ⟨boardOneBody, none⟩⟩)).Get sampleLib (str "boards/b1") []
        Board.zero).out = Outcome.ret none (sampleLib.unmarshal boardOneBody Board.zero).1 :=
  ⟨by decide, by decide, by decide,
    Get_failure_status_decodes_into_target sampleLib
      (sampleClient (answering ⟨404, ⟨boardOneBody, none⟩⟩)) (str "boards/b1") [] Board.zero
      (builtRequest sampleLib Op.get
        (sampleURL (str "https://api.trello.com/1/boards/b1") (str "key=k1&token=t1"))
        (Context.derived 1))
      ⟨404, ⟨boardOneBody, none⟩⟩ none (by decide) rfl (by decide)⟩

theorem occurrences_of_value (name : Bytes) (o : Option Bytes) :
    (o.toList).map (fun x => (name, x)) =
      match o with
      | some value => [(name, value)]
      | none => [] := by
  cases o <;> rfl

/-- C6, amended: for a client with `Key` and `Token` both non-empty, and a base URL and path
without `?` and `#`, the query string of the request each of the five operations hands to
the transport has the parameter `key` exactly once, with value `Key`, the parameter `token`
exactly once, with value `Token`, every caller-supplied argument named neither `key` nor
`token` exactly once, with the caller's value, and no other parameter (a caller-supplied
`key` or `token` is replaced by the credential); and the request is handed over exactly when
`url.Parse` accepts the URL string, `Get` has a context and `PostWithBody` reads its file. -/
theorem call_query_with_credentials {τ : Type} (L : Lib τ) (c : Clienty.Client) (op : Op)
    (path : Bytes) (args : Arguments) (t : τ)
    (hkey : c.Key ≠ []) (htoken : c.Token ≠ [])
    (hbase : (63 : UInt8) ∉ c.BaseURL ∧ (35 : UInt8) ∉ c.BaseURL)
    (hpath : (63 : UInt8) ∉ path ∧ (35 : UInt8) ∉ path) :
    (∀ r, (c.call L op path args t).sent = some r →
        occurrences r.URL.RawQuery (str "key") = [(str "key", c.Key)] ∧
        occurrences r.URL.RawQuery (str "token") = [(str "token", c.Token)] ∧
        ∀ name, name ≠ str "key" → name ≠ str "token" →
          occurrences r.URL.RawQuery name =
            match Arguments.value args name with
            | some value => [(name, value)]
            | none => []) ∧
      ((∃ r, (c.call L op path args t).sent = some r) ↔
        (Parse L (c.BaseURL ++ str "/" ++ path ++ str "?" ++
            (withCredentials c args.ToURLValues).Encode) ≠ none ∧
          (op = Op.get → c.ctx ≠ none) ∧
          ∀ filename file, op = Op.postWithBody filename file → file.err = none)) := by
  refine ⟨?_, call_sent_iff L c op path args t⟩
  intro r hsent
  obtain ⟨hp, _⟩ := call_sent_eq L c op path args t r hsent
  obtain ⟨hq, _⟩ := Parse_specURL L c path args r.URL hbase hpath hp
  rw [hq]
  have hwf := withCredentials_WF c _ (ToURLValues_WF args)
  have hw : withCredentials c args.ToURLValues =
      (args.ToURLValues.Set (str "key") c.Key).Set (str "token") c.Token := by
    simp [withCredentials, hkey, htoken]
  rw [hw] at hwf ⊢
  refine ⟨?_, ?_, ?_⟩
  · rw [occurrences_Encode _ hwf, lookup_Set, if_neg (fun e => str_key_ne_token e.symm),
      lookup_Set, if_pos rfl]
    rfl
  · rw [occurrences_Encode _ hwf, lookup_Set, if_pos rfl]
    rfl
  · intro name hnk hnt
    rw [occurrences_Encode _ hwf, lookup_Set, if_neg hnt, lookup_Set, if_neg hnk,
      lookup_ToURLValues, occurrences_of_value]

/-- Witness for C6: `Post` by a client with key `k1` and token `t1` and the arguments
`name=New board` and `key=mine`. -/
theorem call_query_with_credentials_witness :
    (sampleClient (answering ⟨200, ⟨str "\x7b\x7d", none⟩⟩)).Key ≠ [] ∧
      (sampleClient (answering ⟨200, ⟨str "\x7b\x7d", none⟩⟩)).Token ≠ [] ∧
      ((sampleClient (answering ⟨200, ⟨str "\x7b\x7d", none⟩⟩)).call sampleLib Op.post (str "boards")
        [(str "name", str "New board"), (str "key", str "mine")] Board.zero).sent =
        some (builtRequest sampleLib Op.post
          (sampleURL (str "https://api.trello.com/1/boards")
            (str "key=k1&name=New+board&token=t1")) Context.background) ∧
      occurrences (str "key=k1&name=New+board&token=t1") (str "key") =
        [(str "key", str "k1")] ∧
      occurrences (str "key=k1&name=New+board&token=t1") (str "token") =
        [(str "token", str "t1")] ∧
      ∀ name, name ≠ str "key" → name ≠ str "token" →
        occurrences (str "key=k1&name=New+board&token=t1") name =
          match Arguments.value [(str "name", str "New board"), (str "key", str "mine")]
            name with
          | some value => [(name, value)]
          | none => [] :=
  ⟨by decide, by decide, by decide,
    (call_query_with_credentials sampleLib (sampleClient (answering ⟨200, ⟨str "\x7b\x7d", none⟩⟩))
      Op.post (str "boards") [(str "name", str "New board"), (str "key", str "mine")]
      Board.zero (by decide) (by decide) (by decide) (by decide)).1
      (builtRequest sampleLib Op.post
        (sampleURL (str "https://api.trello.com/1/boards")
          (str "key=k1&name=New+board&token=t1")) Context.background) (by decide)⟩

/-- Counterexample to C6 as stated.  First, a client with key `k1` and token `t1` calls `Get`
with the caller-supplied arguments `key=mine` and `filter=open`: the request has the query
string `filter=open&key=k1&token=t1`, which does not carry the caller's `key` argument with
the value the caller gave it.  Second, the same client calls `Get` with the path `boards#x`
and no arguments: `url.Parse` takes everything after the `#` as the fragment, so the request
has an empty query string and no parameter `key` at all. -/
theorem caller_key_argument_not_preserved :
    (((sampleClient (answering ⟨200, ⟨str "\x7b\x7d", none⟩⟩)).Get sampleLib (str "boards")
        [(str "key", str "mine"), (str "filter", str "open")] Board.zero).sent =
      some ⟨str "GET",
        sampleURL (str "https://api.trello.com/1/boards") (str "filter=open&key=k1&token=t1"),
        none, [], Context.derived 1⟩ ∧
      ¬ ∀ name value,
        Arguments.value [(str "key", str "mine"), (str "filter", str "open")] name =
          some value →
        (name, value) ∈ queryParams (str "filter=open&key=k1&token=t1")) ∧
    (((sampleClient (answering ⟨200, ⟨str "\x7b\x7d", none⟩⟩)).Get sampleLib (str "boards#x") []
        Board.zero).sent =
      some ⟨str "GET",
        sampleURL (str "https://api.trello.com/1/boards#x?key=k1&token=t1") [],
        none, [], Context.derived 1⟩ ∧
      occurrences [] (str "key") = []) := by
  refine ⟨⟨by decide, fun h => ?_⟩, by decide, by decide⟩
  have h1 := h (str "key") (str "mine") (by decide)
  revert h1
  decide

/-- C7, amended: for a client with `Key` and `Token` both empty, and a base URL and path
without `?` and `#`, the query string of the request each of the five operations hands to
the transport holds exactly the caller-supplied arguments: every caller-supplied argument
exactly once with the caller's value and no other parameter, so it has a parameter `key`
(or `token`) exactly when the caller supplied an argument of that name; and the request is
handed over exactly when `url.Parse` accepts the URL string, `Get` has a context and
`PostWithBody` reads its file. -/
theorem call_query_without_credentials {τ : Type} (L : Lib τ) (c : Clienty.Client) (op : Op)
    (path : Bytes) (args : Arguments) (t : τ)
    (hkey : c.Key = []) (htoken : c.Token = [])
    (hbase : (63 : UInt8) ∉ c.BaseURL ∧ (35 : UInt8) ∉ c.BaseURL)
    (hpath : (63 : UInt8) ∉ path ∧ (35 : UInt8) ∉ path) :
    (∀ r, (c.call L op path args t).sent = some r →
        (∀ name,
          occurrences r.URL.RawQuery name =
            match Arguments.value args name with
            | some value => [(name, value)]
            | none => []) ∧
        (occurrences r.URL.RawQuery (str "key") = [] ↔
          Arguments.value args (str "key") = none) ∧
        (occurrences r.URL.RawQuery (str "token") = [] ↔
          Arguments.value args (str "token") = none)) ∧
      ((∃ r, (c.call L op path args t).sent = some r) ↔
        (Parse L (c.BaseURL ++ str "/" ++ path ++ str "?" ++
            (withCredentials c args.ToURLValues).Encode) ≠ none ∧
          (op = Op.get → c.ctx ≠ none) ∧
          ∀ filename file, op = Op.postWithBody filename file → file.err = none)) := by
  refine ⟨?_, call_sent_iff L c op path args t⟩
  intro r hsent
  obtain ⟨hp, _⟩ := call_sent_eq L c op path args t r hsent
  obtain ⟨hq, _⟩ := Parse_specURL L c path args r.URL hbase hpath hp
  have hw : withCredentials c args.ToURLValues = args.ToURLValues := by
    simp [withCredentials, hkey, htoken]
  rw [hq, hw]
  have hall : ∀ name, occurrences args.ToURLValues.Encode name =
      match Arguments.value args name with
      | some value => [(name, value)]
      | none => [] := by
    intro name
    rw [occurrences_Encode _ (ToURLValues_WF args), lookup_ToURLValues, occurrences_of_value]
  refine ⟨hall, ?_, ?_⟩
  · rw [hall]
    cases Arguments.value args (str "key") <;> simp
  · rw [hall]
    cases Arguments.value args (str "token") <;> simp

/-- Witness for C7: `Put` by a client without credentials and the argument `name=Renamed`. -/
theorem call_query_without_credentials_witness :
    (anonymousClient (answering ⟨200, ⟨str "\x7b\x7d", none⟩⟩)).Key = [] ∧
      (anonymousClient (answering ⟨200, ⟨str "\x7b\x7d", none⟩⟩)).Token = [] ∧
      ((anonymousClient (answering ⟨200, ⟨str "\x7b\x7d", none⟩⟩)).call sampleLib Op.put
        (str "boards/b1") [(str "name", str "Renamed")] Board.zero).sent =
        some (builtRequest sampleLib Op.put
          (sampleURL (str "https://api.trello.com/1/boards/b1") (str "name=Renamed"))
          Context.background) ∧
      (∀ name,
        occurrences (str "name=Renamed") name =
          match Arguments.value [(str "name", str "Renamed")] name with
          | some value => [(name, value)]
          | none => []) ∧
      (occurrences (str "name=Renamed") (str "key") = [] ↔
        Arguments.value [(str "name", str "Renamed")] (str "key") = none) ∧
      (occurrences (str "name=Renamed") (str "token") = [] ↔
        Arguments.value [(str "name", str "Renamed")] (str "token") = none) :=
  ⟨rfl, rfl, by decide,
    (call_query_without_credentials sampleLib
      (anonymousClient (answering ⟨200, ⟨str "\x7b\x7d", none⟩⟩))
      Op.put (str "boards/b1") [(str "name", str "Renamed")] Board.zero rfl rfl (by decide)
      (by decide)).1
      (builtRequest sampleLib Op.put
        (sampleURL (str "https://api.trello.com/1/boards/b1") (str "name=Renamed"))
        Context.background) (by decide)⟩

/-- Counterexample to C7 as stated.  First, a client with empty `Key` and `Token` calls `Get`
with the caller-supplied argument `key=mine`: the request has the query string `key=mine`,
which has a parameter `key`.  Second, the same client calls `Get` with the path
`boards?key=evil&x=` and no arguments: `url.Parse` takes everything after the first `?` as
the query, so the request has the query string `key=evil&x=?`, which has a parameter `key`
although neither a credential nor an argument supplied one. -/
theorem caller_key_argument_appears :
    (anonymousClient (answering ⟨200, ⟨str "\x7b\x7d", none⟩⟩)).Key = [] ∧
      (anonymousClient (answering ⟨200, ⟨str "\x7b\x7d", none⟩⟩)).Token = [] ∧
      ((anonymousClient (answering ⟨200, ⟨str "\x7b\x7d", none⟩⟩)).Get sampleLib (str "boards")
        [(str "key", str "mine")] Board.zero).sent =
      some ⟨str "GET", sampleURL (str "https://api.trello.com/1/boards") (str "key=mine"),
        none, [], Context.derived 1⟩ ∧
      occurrences (str "key=mine") (str "key") = [(str "key", str "mine")] ∧
      ((anonymousClient (answering ⟨200, ⟨str "\x7b\x7d", none⟩⟩)).Get sampleLib
        (str "boards?key=evil&x=") [] Board.zero).sent =
      some ⟨str "GET", sampleURL (str "https://api.trello.com/1/boards") (str "key=evil&x=?"),
        none, [], Context.derived 1⟩ ∧
      occurrences (str "key=evil&x=?") (str "key") = [(str "key", str "evil")] := by
  decide

/-- C8, amended: each of the five operations gives `http.NewRequest` exactly the string
`BaseURL + "/" + path + "?" + E`, with `E` the encoding of the arguments after the
credential parameters have been set, and the method GET, PUT, POST, POST or DELETE of its
operation; the request handed to the transport carries what `url.Parse` makes of that
string, the same for all five operations, and it is handed over exactly when `url.Parse`
accepts the string, `Get` has a context and `PostWithBody` reads its file; when neither the
base URL nor the path has a `?` or a `#`, the request's query string is exactly `E` and its
scheme, host and path are what `url.Parse` reads from `BaseURL + "/" + path`. -/
theorem call_url_and_method {τ : Type} (L : Lib τ) (c : Clienty.Client) (path : Bytes)
    (args : Arguments) (t : τ) :
    (∀ op r, (c.call L op path args t).sent = some r →
        Parse L (c.BaseURL ++ str "/" ++ path ++ str "?" ++
          (withCredentials c args.ToURLValues).Encode) = some r.URL ∧
        r.Method = op.method) ∧
      (∀ op1 op2 r1 r2, (c.call L op1 path args t).sent = some r1 →
        (c.call L op2 path args t).sent = some r2 → r1.URL = r2.URL) ∧
      (∀ op, (∃ r, (c.call L op path args t).sent = some r) ↔
        (Parse L (c.BaseURL ++ str "/" ++ path ++ str "?" ++
            (withCredentials c args.ToURLValues).Encode) ≠ none ∧
          (op = Op.get → c.ctx ≠ none) ∧
          ∀ filename file, op = Op.postWithBody filename file → file.err = none)) ∧
      ((63 : UInt8) ∉ c.BaseURL ∧ (35 : UInt8) ∉ c.BaseURL →
        (63 : UInt8) ∉ path ∧ (35 : UInt8) ∉ path →
        ∀ op r, (c.call L op path args t).sent = some r →
          r.URL.RawQuery = (withCredentials c args.ToURLValues).Encode ∧
          L.parseLocation (c.BaseURL ++ str "/" ++ path) [] = some r.URL.Loc) := by
  refine ⟨?_, ?_, fun op => call_sent_iff L c op path args t, ?_⟩
  · intro op r h
    obtain ⟨hp, hr, _⟩ := call_sent_eq L c op path args t r h
    refine ⟨hp, ?_⟩
    rw [hr]
    cases op <;> rfl
  · intro op1 op2 r1 r2 h1 h2
    have e1 := (call_sent_eq L c op1 path args t r1 h1).1
    have e2 := (call_sent_eq L c op2 path args t r2 h2).1
    rw [e1] at e2
    exact Option.some.inj e2
  · intro hbase hpath op r h
    exact Parse_specURL L c path args r.URL hbase hpath
      (call_sent_eq L c op path args t r h).1

/-- Witness for C8: `Delete` of `boards/b1` with the argument `filter=open` sends a DELETE
request whose URL has the location `https://api.trello.com/1/boards/b1` and the query string
`filter=open&key=k1&token=t1`. -/
theorem call_url_and_method_witness :
    ((sampleClient (answering ⟨200, ⟨str "\x7b\x7d", none⟩⟩)).call sampleLib Op.delete
        (str "boards/b1") [(str "filter", str "open")] Board.zero).sent =
      some (builtRequest sampleLib Op.delete
        (sampleURL (str "https://api.trello.com/1/boards/b1")
          (str "filter=open&key=k1&token=t1")) Context.background) ∧
      (builtRequest sampleLib Op.delete
        (sampleURL (str "https://api.trello.com/1/boards/b1")
          (str "filter=open&key=k1&token=t1")) Context.background).URL.RawQuery =
        (withCredentials (sampleClient (answering ⟨200, ⟨str "\x7b\x7d", none⟩⟩))
          (Arguments.ToURLValues [(str "filter", str "open")])).Encode ∧
      (withCredentials (sampleClient (answering ⟨200, ⟨str "\x7b\x7d", none⟩⟩))
          (Arguments.ToURLValues [(str "filter", str "open")])).Encode =
        str "filter=open&key=k1&token=t1" ∧
      (builtRequest sampleLib Op.delete
        (sampleURL (str "https://api.trello.com/1/boards/b1")
          (str "filter=open&key=k1&token=t1")) Context.background).Method = str "DELETE" ∧
      ∃ r, ((sampleClient (answering ⟨200, ⟨str "\x7b\x7d", none⟩⟩)).call sampleLib Op.delete
        (str "boards/b1") [(str "filter", str "open")] Board.zero).sent = some r :=
  ⟨by decide,
    ((call_url_and_method sampleLib (sampleClient (answering ⟨200, ⟨str "\x7b\x7d", none⟩⟩))
      (str "boards/b1") [(str "filter", str "open")] Board.zero).2.2.2 (by decide) (by decide)
      Op.delete _ (by decide)).1,
    by decide,
    ((call_url_and_method sampleLib (sampleClient (answering ⟨200, ⟨str "\x7b\x7d", none⟩⟩))
      (str "boards/b1") [(str "filter", str "open")] Board.zero).1 Op.delete _ (by decide)).2,
    ((call_url_and_method sampleLib (sampleClient (answering ⟨200, ⟨str "\x7b\x7d", none⟩⟩))
      (str "boards/b1") [(str "filter", str "open")] Board.zero).2.2.1 Op.delete).2
      ⟨by decide, fun h => (by cases h), fun _ _ h => (by cases h)⟩⟩

/-- Counterexample to C8 as stated.  First, a client whose base URL is `http://bad\x7fhost`
calls `Put`: `url.Parse` rejects the control byte, `http.NewRequest` returns a nil request
and `Put` panics without sending anything.  Second, a client with key `k1` and token `t1`
calls `Put` with the path `boards#x`: the URL string is
`https://api.trello.com/1/boards#x?key=k1&token=t1`, `url.Parse` takes everything after
the `#` as the fragment, and the request handed to the transport has an empty query string,
not the encoded parameters `key=k1&token=t1`. -/
theorem request_not_sent_to_spec_url :
    (badHostClient (answering ⟨200, ⟨str "\x7b\x7d", none⟩⟩)).call sampleLib Op.put (str "boards") []
        Board.zero = ⟨none, Outcome.panic⟩ ∧
      ((sampleClient (answering ⟨200, ⟨str "\x7b\x7d", none⟩⟩)).call sampleLib Op.put
        (str "boards#x") [] Board.zero).sent =
        some ⟨str "PUT", sampleURL (str "https://api.trello.com/1/boards#x?key=k1&token=t1") [],
          none, [], Context.background⟩ ∧
      (withCredentials (sampleClient (answering ⟨200, ⟨str "\x7b\x7d", none⟩⟩))
          (Arguments.ToURLValues [])).Encode = str "key=k1&token=t1" ∧
      (sampleURL (str "https://api.trello.com/1/boards#x?key=k1&token=t1") []).RawQuery ≠
        str "key=k1&token=t1" := by
  decide

/-- C9, as the code behaves: the request handed to the transport by `Put`, `Post`,
`PostWithBody` and `Delete` carries the background context `http.NewRequest` gives it,
whatever the client's context is; only `Get` attaches `c.ctx`. -/
theorem call_without_client_context {τ : Type} (L : Lib τ) (c : Clienty.Client) (op : Op)
    (path : Bytes) (args : Arguments) (t : τ) (r : Request)
    (hop : op ≠ Op.get)
    (hsent : (c.call L op path args t).sent = some r) :
    r.ctx = Context.background :=
  (call_sent_eq L c op path args t r hsent).2.2.2.1 hop

/-- Witness for C9: `Put` by a client whose context is `Context.derived 1` sends a request
that carries the background context. -/
theorem call_without_client_context_witness :
    (sampleClient (answering ⟨200, ⟨str "\x7b\x7d", none⟩⟩)).ctx = some (Context.derived 1) ∧
      ((sampleClient (answering ⟨200, ⟨str "\x7b\x7d", none⟩⟩)).call sampleLib Op.put
        (str "boards/b1") [] Board.zero).sent =
        some (builtRequest sampleLib Op.put
          (sampleURL (str "https://api.trello.com/1/boards/b1") (str "key=k1&token=t1"))
          Context.background) ∧
      (builtRequest sampleLib Op.put
          (sampleURL (str "https://api.trello.com/1/boards/b1") (str "key=k1&token=t1"))
          Context.background).ctx = Context.background :=
  ⟨rfl, by decide,
    call_without_client_context sampleLib (sampleClient (answering ⟨200, ⟨str "\x7b\x7d", none⟩⟩))
      Op.put (str "boards/b1") [] Board.zero _ (by decide) (by decide)⟩

/-- C10: the request `Post` hands to the transport has the header
`Content-Type: application/x-www-form-urlencoded`; the one `PostWithBody` hands over carries
the multipart body with the file's bytes and has instead the header
`Content-Type: multipart/form-data; boundary=` followed by the boundary of that body (in
double quotes exactly when the boundary contains one of `()<>@,;:\"/[]?= `), which is not the
form-urlencoded value; the ones `Get`, `Put` and `Delete` hand over have no `Content-Type`
header; and each operation does hand its request over, exactly when `url.Parse` accepts the
URL string, `Get` has a context and `PostWithBody` reads its file. -/
theorem call_content_type {τ : Type} (L : Lib τ) (c : Clienty.Client) (path : Bytes)
    (args : Arguments) (t : τ) :
    (∀ op r, (c.call L op path args t).sent = some r →
      (op = Op.post →
        r.Header.lookup (str "Content-Type") = [str "application/x-www-form-urlencoded"]) ∧
      (∀ filename file, op = Op.postWithBody filename file →
        ∃ body, r.Body = some body ∧ body.content = file.data ∧
          r.Header.lookup (str "Content-Type") =
            [str "multipart/form-data; boundary=" ++
              (if needsQuote body.boundary then 34 :: body.boundary ++ [34]
                else body.boundary)] ∧
          r.Header.lookup (str "Content-Type") ≠
            [str "application/x-www-form-urlencoded"]) ∧
      (op = Op.get ∨ op = Op.put ∨ op = Op.delete →
        r.Header.has (str "Content-Type") = false)) ∧
    (∀ op, (∃ r, (c.call L op path args t).sent = some r) ↔
      (Parse L (c.BaseURL ++ str "/" ++ path ++ str "?" ++
          (withCredentials c args.ToURLValues).Encode) ≠ none ∧
        (op = Op.get → c.ctx ≠ none) ∧
        ∀ filename file, op = Op.postWithBody filename file → file.err = none)) := by
  refine ⟨?_, fun op => call_sent_iff L c op path args t⟩
  intro op r hsent
  obtain ⟨_, hr, _, _⟩ := call_sent_eq L c op path args t r hsent
  have hne := formDataContentType_ne_form L.boundary
  cases op with
  | get => rw [hr]; simp [builtRequest, Values.has]
  | put => rw [hr]; simp [builtRequest, Values.has]
  | delete => rw [hr]; simp [builtRequest, Values.has]
  | post =>
    rw [hr]
    simp [builtRequest, Values.lookup, contentType, formURLEncoded]
  | postWithBody filename file =>
    rw [hr]
    refine ⟨fun h => (by cases h), ?_, fun h => (by simp at h)⟩
    intro fn fl hfl
    cases hfl
    refine ⟨_, rfl, rfl, ?_, ?_⟩
    · simp [builtRequest, Values.lookup, contentType, FormDataContentType]
    · simpa [builtRequest, Values.lookup, contentType] using hne

/-- Witness for C10: `Post` sends `Content-Type: application/x-www-form-urlencoded`,
`PostWithBody` with the boundary `5f1c0a9e` sends
`Content-Type: multipart/form-data; boundary=5f1c0a9e`, and `Get` sends no `Content-Type`. -/
theorem call_content_type_witness :
    (((sampleClient (answering ⟨200, ⟨str "\x7b\x7d", none⟩⟩)).call sampleLib Op.post
        (str "boards") [(str "name", str "New board")] Board.zero).sent =
      some ⟨str "POST",
        sampleURL (str "https://api.trello.com/1/boards") (str "key=k1&name=New+board&token=t1"),
        none, [(str "Content-Type", [str "application/x-www-form-urlencoded"])],
        Context.background⟩ ∧
      Values.lookup [(str "Content-Type", [str "application/x-www-form-urlencoded"])]
        (str "Content-Type") = [str "application/x-www-form-urlencoded"]) ∧
    (((sampleClient (answering ⟨200, ⟨str "\x7b\x7d", none⟩⟩)).call sampleLib
        (Op.postWithBody (str "a.txt") ⟨str "hello", none⟩) (str "cards/c1/attachments") []
        Board.zero).sent =
      some ⟨str "POST",
        sampleURL (str "https://api.trello.com/1/cards/c1/attachments") (str "key=k1&token=t1"),
        some ⟨str "5f1c0a9e", str "file", str "a.txt", str "hello"⟩,
        [(str "Content-Type", [str "multipart/form-data; boundary=5f1c0a9e"])],
        Context.background⟩ ∧
      ∃ body, some (⟨str "5f1c0a9e", str "file", str "a.txt", str "hello"⟩ : Multipart) =
          some body ∧ body.content = str "hello" ∧
        Values.lookup [(str "Content-Type", [str "multipart/form-data; boundary=5f1c0a9e"])]
          (str "Content-Type") =
          [str "multipart/form-data; boundary=" ++
            (if needsQuote body.boundary then 34 :: body.boundary ++ [34]
              else body.boundary)] ∧
        Values.lookup [(str "Content-Type", [str "multipart/form-data; boundary=5f1c0a9e"])]
          (str "Content-Type") ≠ [str "application/x-www-form-urlencoded"]) ∧
    (((sampleClient (answering ⟨200, ⟨str "\x7b\x7d", none⟩⟩)).call sampleLib Op.get
        (str "boards/b1") [] Board.zero).sent =
      some ⟨str "GET",
        sampleURL (str "https://api.trello.com/1/boards/b1") (str "key=k1&token=t1"),
        none, [], Context.derived 1⟩ ∧
      Values.has [] (str "Content-Type") = false) ∧
    ∃ r, ((sampleClient (answering ⟨200, ⟨str "\x7b\x7d", none⟩⟩)).call sampleLib Op.post
        (str "boards") [(str "name", str "New board")] Board.zero).sent = some r :=
  ⟨⟨by decide,
      ((call_content_type sampleLib (sampleClient (answering ⟨200, ⟨str "\x7b\x7d", none⟩⟩))
        (str "boards") [(str "name", str "New board")] Board.zero).1 Op.post
        ⟨str "POST",
          sampleURL (str "https://api.trello.com/1/boards")
            (str "key=k1&name=New+board&token=t1"),
          none, [(str "Content-Type", [str "application/x-www-form-urlencoded"])],
          Context.background⟩ (by decide)).1 rfl⟩,
    ⟨by decide,
      ((call_content_type sampleLib (sampleClient (answering ⟨200, ⟨str "\x7b\x7d", none⟩⟩))
        (str "cards/c1/attachments") [] Board.zero).1
        (Op.postWithBody (str "a.txt") ⟨str "hello", none⟩)
        ⟨str "POST",
          sampleURL (str "https://api.trello.com/1/cards/c1/attachments")
            (str "key=k1&token=t1"),
          some ⟨str "5f1c0a9e", str "file", str "a.txt", str "hello"⟩,
          [(str "Content-Type", [str "multipart/form-data; boundary=5f1c0a9e"])],
          Context.background⟩ (by decide)).2.1 (str "a.txt") ⟨str "hello", none⟩ rfl⟩,
    ⟨by decide,
      ((call_content_type sampleLib (sampleClient (answering ⟨200, ⟨str "\x7b\x7d", none⟩⟩))
        (str "boards/b1") [] Board.zero).1 Op.get
        ⟨str "GET",
          sampleURL (str "https://api.trello.com/1/boards/b1") (str "key=k1&token=t1"),
          none, [], Context.derived 1⟩ (by decide)).2.2 (Or.inl rfl)⟩,
    ((call_content_type sampleLib (sampleClient (answering ⟨200, ⟨str "\x7b\x7d", none⟩⟩))
      (str "boards") [(str "name", str "New board")] Board.zero).2 Op.post).2
      ⟨by decide, fun h => (by cases h), fun _ _ h => (by cases h)⟩⟩

end Clienty
